import Mathlib

/-!
The class `ompl::geometric::Benchmark`.

A shallow embedding of `src/ompl/geometric/src/Benchmark.cpp`: the serializer
`saveResultsToStream` and the driver `benchmark`, followed by theorems about them.

* `std::map<std::string, V>` is a list of entries kept in increasing key order
  (`StdMap`), with `assign` for `m[k] = v`, `find` for `m.find(k)` and `index`
  for the reading use of `m[k]`.
* `std::ostream` is the text written so far; `std::endl` is a line feed.
* `std::vector` is `List`; `operator[]` is bounds-checked where the index is
  computed by the program (`benchmark`).
-/

namespace Ompl

/-! ## std::map -/

/-- Entries of a `std::map<std::string, V>`, in iteration order. -/
abbrev StdMap (V : Type) := List (String × V)

namespace StdMap

/-- The comparison `a < b` of `std::string`: lexicographic on the characters. -/
def strLt (a b : String) : Bool := decide (a.data < b.data)

/-- The keys in iteration order (`it->first` for `it` from `begin()` to `end()`). -/
def keys {V : Type} (m : StdMap V) : List String := m.map Prod.fst

/-- The map after `m[k] = v`: the entry is replaced when the key is present and is
inserted at its place in key order otherwise. -/
def assign {V : Type} : StdMap V → String → V → StdMap V
  | [], k, v => [(k, v)]
  | (k', v') :: rest, k, v =>
    if strLt k k' then (k, v) :: (k', v') :: rest
    else if k = k' then (k, v) :: rest
    else (k', v') :: assign rest k v

/-- The result of `m.find(k)`: the mapped value, `none` standing for `end()`. -/
def find {V : Type} : StdMap V → String → Option V
  | [], _ => none
  | (k', v') :: rest, k => if k = k' then some v' else find rest k

/-- The reading use of `m[k]` on a non-const map: the mapped value, and the map
itself, in which an absent key has been inserted with the empty string. -/
def index (m : StdMap String) (k : String) : String × StdMap String :=
  match find m k with
  | some v => (v, m)
  | none => ("", assign m k "")

/-- Well-formedness of a map: keys strictly increasing. -/
def WF {V : Type} (m : StdMap V) : Prop := List.Sorted (fun a b => a < b) (keys m)

end StdMap

/-! ## Data model -/

/-- The properties of one run (`RunProperties`, a `std::map<std::string, std::string>`). -/
abbrev RunProperties := StdMap String

/-- One entry of `exp_`: the data of one planner. -/
structure Experiment where
  name : String
  runs : List RunProperties
  avg : RunProperties
deriving DecidableEq, Repr

/-! ## saveResultsToStream -/

/-- Place `a` into an increasing list. -/
def orderedInsert (a : String) : List String → List String
  | [] => [a]
  | b :: l => if StdMap.strLt a b then a :: b :: l else b :: orderedInsert a l

/-- The list after `std::sort(v.begin(), v.end())`, by `operator<` on strings. -/
def stdSort : List String → List String
  | [] => []
  | a :: l => orderedInsert a (stdSort l)

/-- The map `propSeen` after the loops of lines 59-61: every key of every run is
assigned `true`. -/
def propSeen (runs : List RunProperties) : StdMap Bool :=
  runs.foldl
    (fun seen run => run.foldl (fun seen mit => StdMap.assign seen mit.1 true) seen) []

/-- The vector `properties` after lines 62-65: the keys of `propSeen` pushed back in
iteration order, then sorted. -/
def properties (e : Experiment) : List String :=
  stdSort ((propSeen e.runs).foldl (fun props it => props ++ [it.1]) [])

/-- The stream after lines 76-83 for one run: for each property the value, when the
run has it, and then "; "; a line feed at the end. -/
def writeRun (props : List String) (out : String) (run : RunProperties) : String :=
  (props.foldl
    (fun out k =>
      let out := match StdMap.find run k with
        | some v => out ++ v
        | none => out
      out ++ "; ") out) ++ "\n"

/-- The vector `properties` after lines 87-90: the keys of `avg`, sorted. -/
def avgNames (e : Experiment) : List String :=
  stdSort (e.avg.foldl (fun props mit => props ++ [mit.1]) [])

/-- The stream after lines 94-98. The names are keys of `avg`, so `find` does not
return `end()` there; the stream is left as it is in that case. -/
def writeAvg (e : Experiment) (out : String) (k : String) : String :=
  match StdMap.find e.avg k with
  | some v => out ++ k ++ " = " ++ v ++ "\n"
  | none => out

/-- The body of the loop over `exp_` (lines 55-99). -/
def writeExperiment (out : String) (e : Experiment) : String :=
  let out := out ++ e.name
  let props := properties e
  let out := out ++ toString props.length ++ " properties for each run" ++ "\n"
  let out := props.foldl (fun out p => out ++ p ++ "\n") out
  let out := out ++ toString e.runs.length ++ " runs" ++ "\n"
  let out := e.runs.foldl (writeRun props) out
  let names := avgNames e
  let out := out ++ toString names.length ++ " averaged properties" ++ "\n"
  let out := names.foldl (writeAvg e) out
  out ++ "." ++ "\n"

/-- The stream after `saveResultsToStream(out)`, `out` being the text written before. -/
def saveResultsToStream (exp_ : List Experiment) (out : String) : String :=
  let out := out ++ toString exp_.length ++ " planners" ++ "\n"
  exp_.foldl writeExperiment out

/-! ## Numbers and their text -/

/-- Values of `double`: a finite value, an infinity with its sign, or a NaN. Finite
values are exact rationals (rounding is not modelled) and there is one zero. -/
inductive Dbl where
  | fin (q : ℚ)
  | inf (negative : Bool)
  | nan
deriving DecidableEq

namespace Dbl

/-- Addition of doubles (`sum += value`). -/
def add : Dbl → Dbl → Dbl
  | fin a, fin b => fin (a + b)
  | fin _, inf s => inf s
  | inf s, fin _ => inf s
  | inf s, inf t => if s = t then inf s else nan
  | nan, _ => nan
  | _, nan => nan

/-- Division of doubles. The divisors of the program are `1024.0 * 1024.0` and a
`size()` converted to `double`, so a zero divisor is the positive zero: a non-zero
finite value divided by it is an infinity of the sign of the dividend, zero divided by
it is a NaN. -/
def div : Dbl → Dbl → Dbl
  | fin a, fin b =>
    if b = 0 then (if a = 0 then nan else inf (decide (a < 0))) else fin (a / b)
  | fin _, inf _ => fin 0
  | inf s, fin b => inf (xor s (decide (b < 0)))
  | inf _, inf _ => nan
  | nan, _ => nan
  | _, nan => nan

end Dbl

/-- The text `toString(value)` of a `bool`: the stream writes `1` or `0`. -/
def toStringBool (value : Bool) : String := if value then "1" else "0"

/-! ## Collaborators -/

/-- The part of `base::PlannerData` that is read: the states and, for each state, its
edges. -/
structure PlannerData where
  states : List Nat
  edges : List (List Nat)
deriving DecidableEq

/-- The collaborators of `benchmark`, as functions of the state `W` of everything
outside the benchmark object: the space information and its state allocator, the
goal of the problem definition, the planners (named by the entries of `planners_`),
the process memory, the clock, and the conversion between `double` and text done by
the streams. `memUsed start end` is `(double)(end - start)` in `MemUsage_t`, and
`seconds start end` is `time::seconds(end - start)`; both types are declared in
`ompl/util`, outside this file. -/
structure Env (W : Type) where
  siIsSetup : W → Bool
  siSetup : W → W
  allocatorClear : W → W
  allocatorSize : W → Nat
  getGoal : W → Bool
  clearSolutionPath : W → W
  isApproximate : W → Bool
  getDifference : W → Dbl
  solutionLength : W → Dbl
  setProblemDefinition : Nat → W → W
  plannerIsSetup : Nat → W → Bool
  plannerSetup : Nat → W → W
  getName : Nat → W → String
  plannerClear : Nat → W → W
  solve : Nat → Dbl → W → Bool × W
  getPlannerData : Nat → W → PlannerData
  getProcessMemoryUsage : W → Nat
  memUsed : Nat → Nat → Dbl
  now : W → Int
  seconds : Int → Int → Dbl
  showDouble : Dbl → String
  readDouble : String → Dbl

/-- A call made by `benchmark` on a collaborator; `p` is the planner called. -/
inductive Call where
  | error (text : String)
  | siIsSetup
  | siSetup
  | setProblemDefinition (p : Nat)
  | plannerIsSetup (p : Nat)
  | plannerSetup (p : Nat)
  | getName (p : Nat)
  | allocatorClear
  | plannerClear (p : Nat)
  | clearSolutionPath
  | getProcessMemoryUsage
  | now
  | solve (p : Nat)
  | allocatorSize
  | isApproximate
  | getDifference
  | solutionLength
  | getPlannerData (p : Nat)
deriving DecidableEq, Repr

/-- The benchmark object and its surroundings: whether `si_` is set, the planners,
the experiments, the state of the collaborators and the calls made on them so far. -/
structure Benchmark (W : Type) where
  si_ : Bool
  planners_ : List Nat
  exp_ : List Experiment
  world : W
  calls : List Call

namespace Benchmark

/-- Record a call that leaves the collaborators as they are. -/
def log {W : Type} (b : Benchmark W) (c : Call) : Benchmark W :=
  { b with calls := b.calls ++ [c] }

/-- Record a call that changes the collaborators by `f`. -/
def call {W : Type} (b : Benchmark W) (c : Call) (f : W → W) : Benchmark W :=
  { b with world := f b.world, calls := b.calls ++ [c] }

end Benchmark

/-- Why a run of `benchmark` stops before its end: an index outside its vector, or
the bound on the number of loop iterations of this model used up. -/
inductive Abort where
  | outOfRange
  | outOfFuel
deriving DecidableEq, Repr

/-- Result of a piece of `benchmark`: the value, or the abort with the state reached. -/
abbrev Result (W α : Type) := Except (Abort × Benchmark W) α

/-! ## benchmark -/

/-- Lines 145-148: configure planner `planners_[i]` and store its name in `exp_[i]`. -/
def configure {W : Type} (env : Env W) (i : Nat) (b : Benchmark W) :
    Result W (Benchmark W) :=
  match b.planners_[i]? with
  | none => .error (.outOfRange, b)
  | some p =>
    let b := b.call (.setProblemDefinition p) (env.setProblemDefinition p)
    let isSetup := env.plannerIsSetup p b.world
    let b := b.log (.plannerIsSetup p)
    let b := if !isSetup then b.call (.plannerSetup p) (env.plannerSetup p) else b
    let name := env.getName p b.world
    let b := b.log (.getName p)
    match b.exp_[i]? with
    | none => .error (.outOfRange, b)
    | some e => .ok { b with exp_ := b.exp_.set i { e with name := name } }

/-- Lines 172-177: the three properties of a solution, read from the goal. -/
def solutionProperties {W : Type} (env : Env W) (run : RunProperties) (b : Benchmark W) :
    RunProperties × Benchmark W :=
  let run := StdMap.assign run "approximate solution" (toStringBool (env.isApproximate b.world))
  let b := b.log .isApproximate
  let run := StdMap.assign run "solution difference" (env.showDouble (env.getDifference b.world))
  let b := b.log .getDifference
  let run := StdMap.assign run "solution length" (env.showDouble (env.solutionLength b.world))
  let b := b.log .solutionLength
  (run, b)

/-- Lines 153-189: one run of planner `planners_[i]`, appended to `exp_[i].runs`. -/
def runTrial {W : Type} (env : Env W) (maxTime : Dbl) (i : Nat) (b : Benchmark W) :
    Result W (Benchmark W) :=
  match b.planners_[i]? with
  | none => .error (.outOfRange, b)
  | some p =>
    let b := b.call .allocatorClear env.allocatorClear
    let b := b.call (.plannerClear p) (env.plannerClear p)
    let b := b.call .clearSolutionPath env.clearSolutionPath
    let memStart := env.getProcessMemoryUsage b.world
    let b := b.log .getProcessMemoryUsage
    let timeStart := env.now b.world
    let b := b.log .now
    let solved := (env.solve p maxTime b.world).1
    let b := b.call (.solve p) (fun w => (env.solve p maxTime w).2)
    let timeUsed := env.seconds timeStart (env.now b.world)
    let b := b.log .now
    let memUsed := env.memUsed memStart (env.getProcessMemoryUsage b.world)
    let b := b.log .getProcessMemoryUsage
    let run : RunProperties := []
    let run := StdMap.assign run "solved" (toStringBool solved)
    let run := StdMap.assign run "time" (env.showDouble timeUsed)
    let run := StdMap.assign run "memory"
      (env.showDouble (Dbl.div memUsed (Dbl.fin (1024 * 1024))))
    let run := StdMap.assign run "preallocated states" (toString (env.allocatorSize b.world))
    let b := b.log .allocatorSize
    let (run, b) := if solved then solutionProperties env run b else (run, b)
    let pd := env.getPlannerData p b.world
    let b := b.log (.getPlannerData p)
    let run := StdMap.assign run "graph states" (toString pd.states.length)
    let edges := pd.edges.foldl (fun edges e => edges + e.length) 0
    let run := StdMap.assign run "graph motions" (toString edges)
    match b.exp_[i]? with
    | none => .error (.outOfRange, b)
    | some e => .ok { b with exp_ := b.exp_.set i { e with runs := e.runs ++ [run] } }

/-- Lines 151-190: the loop over `j`; the argument counts the runs still to do,
`runCount - j`. -/
def runTrials {W : Type} (env : Env W) (maxTime : Dbl) (i : Nat) :
    Nat → Benchmark W → Result W (Benchmark W)
  | 0, b => .ok b
  | n + 1, b =>
    match runTrial env maxTime i b with
    | .error a => .error a
    | .ok b => runTrials env maxTime i n b

/-- Lines 196-202: the loop `for (j = 0 ; j < exp_[i].runs.size() ; ++i)`. The test
reads `exp_[i]`, the body reads `exp_[i].runs[j][prop]` (which inserts an absent key),
adds the value read from that text to `sum`, and then `i` is advanced, `j` staying as
it is. The result is the final `i`, the sum and the state. -/
def avgLoop {W : Type} (env : Env W) (prop : String) (j : Nat) :
    Nat → Nat → Dbl → Benchmark W → Result W (Nat × Dbl × Benchmark W)
  | 0, _, _, b => .error (.outOfFuel, b)
  | fuel + 1, i, sum, b =>
    match b.exp_[i]? with
    | none => .error (.outOfRange, b)
    | some e =>
      if j < e.runs.length then
        match e.runs[j]? with
        | none => .error (.outOfRange, b)
        | some run =>
          let read := StdMap.index run prop
          let b := { b with exp_ := b.exp_.set i { e with runs := e.runs.set j read.2 } }
          let value := env.readDouble read.1
          avgLoop env prop j fuel (i + 1) (Dbl.add sum value) b
      else .ok (i, sum, b)

/-- Lines 195-203: the average of one property; the result is the `i` the loop ends
with and the state, in which `exp_[i].avg[prop]` has been assigned. -/
def average {W : Type} (env : Env W) (prop : String) (i : Nat) (b : Benchmark W) :
    Result W (Nat × Benchmark W) :=
  match avgLoop env prop 0 (b.exp_.length + 1) i (Dbl.fin 0) b with
  | .error a => .error a
  | .ok (i, sum, b) =>
    match b.exp_[i]? with
    | none => .error (.outOfRange, b)
    | some e =>
      let text := env.showDouble (Dbl.div sum (Dbl.fin e.runs.length))
      .ok (i, { b with exp_ := b.exp_.set i { e with avg := StdMap.assign e.avg prop text } })

/-- The vector `avgProperties` of lines 133-136. -/
def avgProperties : List String := ["solved", "time", "memory"]

/-- Lines 193-204: the loop over `p`, given the properties still to average. -/
def averages {W : Type} (env : Env W) :
    List String → Nat → Benchmark W → Result W (Nat × Benchmark W)
  | [], i, b => .ok (i, b)
  | prop :: rest, i, b =>
    match average env prop i b with
    | .error a => .error a
    | .ok (i, b) => averages env rest i b

/-- Lines 142-205: the loop over the planners, from index `i`. The body may advance
`i` itself (in `average`); the first argument bounds the number of iterations. -/
def plannerLoop {W : Type} (env : Env W) (maxTime : Dbl) (runCount : Nat) :
    Nat → Nat → Benchmark W → Result W (Benchmark W)
  | 0, _, b => .error (.outOfFuel, b)
  | fuel + 1, i, b =>
    if i < b.planners_.length then
      match configure env i b with
      | .error a => .error a
      | .ok b =>
        match runTrials env maxTime i runCount b with
        | .error a => .error a
        | .ok b =>
          match averages env avgProperties i b with
          | .error a => .error a
          | .ok (i, b) => plannerLoop env maxTime runCount fuel (i + 1) b
    else .ok b

/-- The method `benchmark(maxTime, maxMem, runCount)`; `maxMem` is not used, as in the
source. -/
def benchmark {W : Type} (env : Env W) (maxTime maxMem : Dbl) (runCount : Nat)
    (b : Benchmark W) : Result W (Benchmark W) :=
  if !b.si_ then
    .ok (b.log (.error "No space information defined"))
  else if !env.getGoal b.world then
    .ok (b.log (.error "No goal defined"))
  else
    let isSetup := env.siIsSetup b.world
    let b := b.log .siIsSetup
    let b := if !isSetup then b.call .siSetup env.siSetup else b
    let b := { b with exp_ := [] }
    let b := { b with exp_ := List.replicate b.planners_.length ⟨"", [], []⟩ }
    plannerLoop env maxTime runCount (b.planners_.length + 1) 0 b

/-! ## A sample of collaborators -/

/-- A reading of decimal digits, as the stream extraction does on such a text; other
texts are not read (the value is zero). -/
def readDigits (s : String) : Dbl :=
  if s.data ≠ [] ∧ s.data.all (fun c => decide ('0' ≤ c ∧ c ≤ '9')) then
    Dbl.fin (s.data.foldl (fun n c => 10 * n + (c.toNat - '0'.toNat)) 0 : Nat)
  else Dbl.fin 0

/-- The text of a `double` on a stream, for the values of the sample: a whole number
below a million is written in decimal digits, the infinities as `inf` and `-inf`, a
NaN as `nan` (the sign that a library may write before it is left out); other values
are not used by the sample. -/
def showWhole : Dbl → String
  | .fin q => if q.den = 1 ∧ 0 ≤ q.num ∧ q.num < 1000000 then toString q.num.toNat else "?"
  | .inf negative => if negative then "-inf" else "inf"
  | .nan => "nan"

/-- Sample collaborators. The state counts the calls of `solve` made so far; `solve`
succeeds on every other call, starting with a success; each call takes two seconds
and three megabytes; planner `0` is named RRT, planner `1` EST, the others SBL. -/
def sampleEnv : Env Nat where
  siIsSetup := fun _ => true
  siSetup := fun w => w
  allocatorClear := fun w => w
  allocatorSize := fun _ => 0
  getGoal := fun _ => true
  clearSolutionPath := fun w => w
  isApproximate := fun _ => false
  getDifference := fun _ => Dbl.fin 0
  solutionLength := fun _ => Dbl.fin 5
  setProblemDefinition := fun _ w => w
  plannerIsSetup := fun _ _ => true
  plannerSetup := fun _ w => w
  getName := fun p _ => if p = 0 then "RRT" else if p = 1 then "EST" else "SBL"
  plannerClear := fun _ w => w
  solve := fun _ _ w => (w % 2 == 0, w + 1)
  getPlannerData := fun _ _ => ⟨[0, 1, 2], [[1, 2], [2], []]⟩
  getProcessMemoryUsage := fun w => 3145728 * w
  memUsed := fun s e => Dbl.fin ((e - s : Nat) : ℚ)
  now := fun w => 2 * (w : Int)
  seconds := fun s e => Dbl.fin ((e - s : Int) : ℚ)
  showDouble := showWhole
  readDouble := readDigits

/-- A benchmark object with the given planners and experiments, `si_` set, and no
call made yet. -/
def sampleBenchmark (planners : List Nat) (exp : List Experiment) : Benchmark Nat :=
  { si_ := true, planners_ := planners, exp_ := exp, world := 0, calls := [] }

/-- The experiments after a run of `benchmark`, when it runs to its end. -/
def expOf {W : Type} (r : Result W (Benchmark W)) : Option (List Experiment) :=
  match r with
  | .ok b => some b.exp_
  | .error _ => none


/-! ## Descriptions used by the theorems -/

/-- The calls of one run of planner `p`, in order (lines 154-180); `solved` is the
result of `solve`. -/
def trialCalls (p : Nat) (solved : Bool) : List Call :=
  [Call.allocatorClear, Call.plannerClear p, Call.clearSolutionPath,
    Call.getProcessMemoryUsage, Call.now, Call.solve p, Call.now,
    Call.getProcessMemoryUsage, Call.allocatorSize] ++
  (if solved then [Call.isApproximate, Call.getDifference, Call.solutionLength] else []) ++
  [Call.getPlannerData p]

/-- The state reached by a piece of `benchmark`: the state returned, or the state at
the abort. -/
def reached {W α : Type} (proj : α → Benchmark W) : Result W α → Benchmark W
  | .ok x => proj x
  | .error (_, s) => s

/-- The state after a run of `benchmark`, returned or reached at the abort. -/
def stateOf {W : Type} (r : Result W (Benchmark W)) : Benchmark W := reached id r

/-- The collaborators after lines 129-130: the space information is set up when it
was not. -/
def siWorld {W : Type} (env : Env W) (w : W) : W :=
  if !env.siIsSetup w then env.siSetup w else w

/-- The state in which the loop over the planners is entered (lines 129-140): the
space information has been set up when it was not, and there is one experiment for
each planner, without name, runs or averages. -/
def prepared {W : Type} (env : Env W) (b : Benchmark W) : Benchmark W :=
  { b with
    exp_ := List.replicate b.planners_.length ⟨"", [], []⟩
    world := siWorld env b.world
    calls := b.calls ++ Call.siIsSetup ::
      (if !env.siIsSetup b.world then [Call.siSetup] else []) }

/-- The collaborators after lines 145-147 for planner `p`: the problem definition is
set, and the planner is set up when it was not. -/
def configureWorld {W : Type} (env : Env W) (p : Nat) (w : W) : W :=
  let w := env.setProblemDefinition p w
  if !env.plannerIsSetup p w then env.plannerSetup p w else w

/-- The experiments of the given planners when no run is made, from the collaborators
in state `w`: each planner is configured in turn and gives its name, there is no run,
and each of `solved`, `time`, `memory` has the text of zero divided by zero runs. -/
def zeroRunExperiments {W : Type} (env : Env W) : List Nat → W → List Experiment
  | [], _ => []
  | p :: ps, w =>
    let w := configureWorld env p w
    let text := env.showDouble (Dbl.div (Dbl.fin 0) (Dbl.fin 0))
    ⟨env.getName p w, [], [("memory", text), ("solved", text), ("time", text)]⟩ ::
      zeroRunExperiments env ps w

/-- The order of the calls around `solve` in a sequence of calls: each call of `solve`
on planner `p` comes right after the three resets (state allocator, planner `p`,
solution path of the goal) and the two readings of memory and time, in this order,
and is followed right away by the readings of time and memory. -/
def SolveOrdered (t : List Call) : Prop :=
  ∀ k p, t[k]? = some (Call.solve p) →
    5 ≤ k ∧ t[k - 5]? = some Call.allocatorClear ∧ t[k - 4]? = some (Call.plannerClear p) ∧
    t[k - 3]? = some Call.clearSolutionPath ∧
    t[k - 2]? = some Call.getProcessMemoryUsage ∧ t[k - 1]? = some Call.now ∧
    t[k + 1]? = some Call.now ∧ t[k + 2]? = some Call.getProcessMemoryUsage

/-- The keys of the averages of every experiment are among `avgProperties`. -/
def AvgKeysOk (exp : List Experiment) : Prop :=
  ∀ e ∈ exp, ∀ k ∈ StdMap.keys e.avg, k ∈ avgProperties

/-- What every piece of the loop over the planners keeps, between the state `b` it
starts from and the state `s` it reaches: the planners, `si_`, the number of
experiments, the keys of the averages being among `avgProperties`, and the calls made
before, to which calls in the order of `SolveOrdered` are added. -/
def Follows {W : Type} (b s : Benchmark W) : Prop :=
  s.planners_ = b.planners_ ∧ s.si_ = b.si_ ∧ s.exp_.length = b.exp_.length ∧
  (AvgKeysOk b.exp_ → AvgKeysOk s.exp_) ∧
  ∃ cs, s.calls = b.calls ++ cs ∧ SolveOrdered cs

/-- The state of the experiments when the loop over the planners is at index `i`:
there is one experiment for each planner, and the experiments from index `i` on have
no run yet. -/
def FreshFrom {W : Type} (i : Nat) (b : Benchmark W) : Prop :=
  b.exp_.length = b.planners_.length ∧
  ∀ k e, i ≤ k → b.exp_[k]? = some e → e.runs = []

/-! ## Lemmas on std::map -/

namespace StdMap

theorem strLt_iff (a b : String) : strLt a b = true ↔ a < b := by
  unfold strLt
  rw [decide_eq_true_iff]
  exact String.lt_iff_toList_lt.symm

theorem mem_keys_assign {V : Type} (m : StdMap V) (k : String) (v : V) (x : String) :
    x ∈ keys (assign m k v) ↔ x = k ∨ x ∈ keys m := by
  induction m with
  | nil => simp [assign, keys]
  | cons hd tl ih =>
    obtain ⟨k', v'⟩ := hd
    unfold assign
    by_cases h1 : strLt k k' = true
    · simp [h1, keys]
    · by_cases h2 : k = k'
      · subst h2
        simp [h1, keys]
      · simp only [h1, h2, if_false, Bool.false_eq_true]
        have ih' : x ∈ List.map Prod.fst (assign tl k v) ↔ x = k ∨ x ∈ List.map Prod.fst tl := ih
        simp only [keys, List.map_cons, List.mem_cons, ih']
        tauto

theorem wf_assign {V : Type} (m : StdMap V) (k : String) (v : V) (h : WF m) :
    WF (assign m k v) := by
  induction m with
  | nil => simp [assign, WF, keys]
  | cons hd tl ih =>
    obtain ⟨k', v'⟩ := hd
    have hs : List.Sorted (fun a b => a < b) (k' :: keys tl) := h
    rw [List.sorted_cons] at hs
    unfold assign
    by_cases h1 : strLt k k' = true
    · have hlt : k < k' := (strLt_iff k k').1 h1
      simp only [h1, if_true]
      show List.Sorted (fun a b => a < b) (k :: k' :: keys tl)
      refine List.sorted_cons.2 ⟨?_, List.sorted_cons.2 hs⟩
      intro b hb
      rcases List.mem_cons.1 hb with hb | hb
      · exact hb ▸ hlt
      · exact lt_trans hlt (hs.1 b hb)
    · by_cases h2 : k = k'
      · subst h2
        simp only [h1, if_true, if_false, Bool.false_eq_true]
        exact List.sorted_cons.2 hs
      · simp only [h1, h2, if_false, Bool.false_eq_true]
        have hgt : k' < k := by
          have hnlt : ¬ k < k' := fun hlt => h1 ((strLt_iff k k').2 hlt)
          exact lt_of_le_of_ne (not_lt.1 hnlt) (Ne.symm h2)
        show List.Sorted (fun a b => a < b) (k' :: keys (assign tl k v))
        refine List.sorted_cons.2 ⟨?_, ih hs.2⟩
        intro b hb
        rcases (mem_keys_assign tl k v b).1 hb with hb | hb
        · exact hb ▸ hgt
        · exact hs.1 b hb

theorem find_ne_none_iff {V : Type} (m : StdMap V) (k : String) :
    find m k ≠ none ↔ k ∈ keys m := by
  induction m with
  | nil => simp [find, keys]
  | cons hd tl ih =>
    obtain ⟨k', v'⟩ := hd
    unfold find
    by_cases h : k = k'
    · simp [h, keys]
    · have ih' : find tl k ≠ none ↔ k ∈ List.map Prod.fst tl := ih
      simp only [h, if_false, keys, List.map_cons, List.mem_cons, false_or, ih']

end StdMap

/-! ## Lemmas on the serializer -/

theorem foldl_push_back {V : Type} (m : StdMap V) (acc : List String) :
    m.foldl (fun props it => props ++ [it.1]) acc = acc ++ StdMap.keys m := by
  induction m generalizing acc with
  | nil => simp [StdMap.keys]
  | cons hd tl ih =>
    have ih' := ih (acc ++ [hd.1])
    simp only [List.foldl_cons, ih']
    simp [StdMap.keys]

theorem orderedInsert_of_sorted (a : String) (l : List String)
    (h : List.Sorted (fun x y => x < y) (a :: l)) : orderedInsert a l = a :: l := by
  cases l with
  | nil => rfl
  | cons b t =>
    have hab : a < b := (List.sorted_cons.1 h).1 b (List.mem_cons_self b t)
    simp [orderedInsert, (StdMap.strLt_iff a b).2 hab]

theorem stdSort_of_sorted (l : List String) (h : List.Sorted (fun x y => x < y) l) :
    stdSort l = l := by
  induction l with
  | nil => rfl
  | cons a t ih =>
    have ht : stdSort t = t := ih (List.sorted_cons.1 h).2
    simp only [stdSort, ht]
    exact orderedInsert_of_sorted a t h

theorem orderedInsert_perm (a : String) (l : List String) :
    (orderedInsert a l).Perm (a :: l) := by
  induction l with
  | nil => exact List.Perm.refl _
  | cons b t ih =>
    unfold orderedInsert
    split
    · exact List.Perm.refl _
    · exact (List.Perm.cons b ih).trans (List.Perm.swap a b t)

theorem stdSort_perm (l : List String) : (stdSort l).Perm l := by
  induction l with
  | nil => exact List.Perm.refl _
  | cons a t ih => exact (orderedInsert_perm a (stdSort t)).trans (List.Perm.cons a ih)

theorem orderedInsert_sorted (a : String) (l : List String)
    (h : List.Sorted (fun x y => x ≤ y) l) :
    List.Sorted (fun x y => x ≤ y) (orderedInsert a l) := by
  induction l with
  | nil => simp [orderedInsert]
  | cons b t ih =>
    have hb := List.sorted_cons.1 h
    unfold orderedInsert
    by_cases hab : StdMap.strLt a b = true
    · have hlt : a < b := (StdMap.strLt_iff a b).1 hab
      simp only [hab, if_true]
      refine List.sorted_cons.2 ⟨?_, h⟩
      intro c hc
      rcases List.mem_cons.1 hc with hc | hc
      · exact hc ▸ le_of_lt hlt
      · exact le_trans (le_of_lt hlt) (hb.1 c hc)
    · have hle : b ≤ a := not_lt.1 (fun hlt => hab ((StdMap.strLt_iff a b).2 hlt))
      simp only [hab, if_false, Bool.false_eq_true]
      refine List.sorted_cons.2 ⟨?_, ih hb.2⟩
      intro c hc
      rcases List.mem_cons.1 ((orderedInsert_perm a t).mem_iff.1 hc) with hc | hc
      · exact hc ▸ hle
      · exact hb.1 c hc

/-- The model of `std::sort` sorts: the result is increasing. -/
theorem stdSort_sorted (l : List String) : List.Sorted (fun x y => x ≤ y) (stdSort l) := by
  induction l with
  | nil => simp [stdSort]
  | cons a t ih => exact orderedInsert_sorted a (stdSort t) ih

theorem propSeen_run_spec (run : RunProperties) (seen : StdMap Bool) (h : StdMap.WF seen) :
    StdMap.WF (run.foldl (fun seen mit => StdMap.assign seen mit.1 true) seen) ∧
    ∀ x, x ∈ StdMap.keys (run.foldl (fun seen mit => StdMap.assign seen mit.1 true) seen) ↔
      x ∈ StdMap.keys seen ∨ x ∈ StdMap.keys run := by
  induction run generalizing seen with
  | nil => simp [h, StdMap.keys]
  | cons hd tl ih =>
    have step := ih (StdMap.assign seen hd.1 true) (StdMap.wf_assign seen hd.1 true h)
    refine ⟨step.1, ?_⟩
    intro x
    have hx := step.2 x
    simp only [List.foldl_cons]
    rw [hx, StdMap.mem_keys_assign]
    have hk : x ∈ StdMap.keys (hd :: tl) ↔ x = hd.1 ∨ x ∈ StdMap.keys tl := by
      simp [StdMap.keys]
    rw [hk]
    tauto

theorem propSeen_fold_spec (runs : List RunProperties) (seen : StdMap Bool)
    (h : StdMap.WF seen) :
    StdMap.WF (runs.foldl
      (fun seen run => run.foldl (fun seen mit => StdMap.assign seen mit.1 true) seen) seen) ∧
    ∀ x, x ∈ StdMap.keys (runs.foldl
      (fun seen run => run.foldl (fun seen mit => StdMap.assign seen mit.1 true) seen) seen) ↔
      x ∈ StdMap.keys seen ∨ ∃ run ∈ runs, x ∈ StdMap.keys run := by
  induction runs generalizing seen with
  | nil => simp [h]
  | cons r tl ih =>
    have hr := propSeen_run_spec r seen h
    have step := ih _ hr.1
    refine ⟨step.1, ?_⟩
    intro x
    have hx := step.2 x
    simp only [List.foldl_cons]
    rw [hx, hr.2 x]
    simp only [List.mem_cons, exists_eq_or_imp]
    tauto

theorem propSeen_wf (runs : List RunProperties) : StdMap.WF (propSeen runs) :=
  (propSeen_fold_spec runs [] (by simp [StdMap.WF, StdMap.keys])).1

theorem mem_keys_propSeen (runs : List RunProperties) (x : String) :
    x ∈ StdMap.keys (propSeen runs) ↔ ∃ run ∈ runs, x ∈ StdMap.keys run := by
  have h := (propSeen_fold_spec runs [] (by simp [StdMap.WF, StdMap.keys])).2 x
  simpa [StdMap.keys] using h

/-- The vector `properties` is the key list of `propSeen`: sorting a map's key list
does not change it. -/
theorem properties_eq (e : Experiment) : properties e = StdMap.keys (propSeen e.runs) := by
  unfold properties
  rw [foldl_push_back, List.nil_append]
  exact stdSort_of_sorted _ (propSeen_wf e.runs)

theorem properties_sorted (e : Experiment) :
    List.Sorted (fun a b => a < b) (properties e) := by
  rw [properties_eq]
  exact propSeen_wf e.runs

theorem foldl_append_eq {α : Type} (f : α → String) (l : List α) (out : String) :
    l.foldl (fun out x => out ++ f x) out = out ++ String.join (l.map f) := by
  induction l generalizing out with
  | nil => simp [String.join]
  | cons a t ih =>
    have hj : ∀ (xs : List String) (acc : String),
        xs.foldl (fun r s => r ++ s) acc = acc ++ xs.foldl (fun r s => r ++ s) "" := by
      intro xs
      induction xs with
      | nil => intro acc; simp
      | cons y ys ihy =>
        intro acc
        simp only [List.foldl_cons]
        rw [ihy (acc ++ y), ihy ("" ++ y)]
        simp [String.append_assoc]
    simp only [List.foldl_cons, List.map_cons, ih, String.join]
    rw [hj (t.map f) ("" ++ f a)]
    simp [String.append_assoc]

/-! ## Theorems on benchmark -/

/-- Claim C1, the code at two planners and `runCount = 1`: `benchmark` returns, and
the experiment of the second planner has no run (the first has one). -/
theorem benchmark_run_counts_two_planners :
    (expOf (benchmark sampleEnv (Dbl.fin 1) (Dbl.fin 1) 1 (sampleBenchmark [0, 1] []))).map
      (fun exp => exp.map (fun e => e.runs.length)) = some [1, 0] := by
  decide!

/-- Claim C2, the code at two planners and `runCount = 2`: the runs of the first
planner have `solved` values 1 and 0, yet its experiment has no average at all, and
the averages stored in the experiment of the second planner, which has no run, are
those of a division by zero runs. -/
theorem benchmark_averages_two_planners :
    (expOf (benchmark sampleEnv (Dbl.fin 1) (Dbl.fin 1) 2 (sampleBenchmark [0, 1] []))).map
      (fun exp => exp.map (fun e => (e.runs.map (fun run => StdMap.find run "solved"), e.avg)))
    = some [([some "1", some "0"], []),
        ([], [("memory", "nan"), ("solved", "inf"), ("time", "nan")])] := by
  decide!

/-- Claim C3, the code at two planners and `runCount = 1`: the average stored under
`solved` in the second experiment is the text of the sum 1 divided by zero runs, an
infinity. -/
theorem benchmark_solved_average_infinite :
    (expOf (benchmark sampleEnv (Dbl.fin 1) (Dbl.fin 1) 1 (sampleBenchmark [0, 1] []))).map
      (fun exp => exp.map (fun e => StdMap.find e.avg "solved"))
    = some [none, some (sampleEnv.showDouble (Dbl.div (Dbl.fin 1) (Dbl.fin 0)))]
    ∧ Dbl.div (Dbl.fin 1) (Dbl.fin 0) = Dbl.inf false := by
  decide!

/-- Claim C4, the code at two planners and `runCount = 1`: there are two experiments,
but the name of the second is empty, while the second planner is named EST. -/
theorem benchmark_names_two_planners :
    (expOf (benchmark sampleEnv (Dbl.fin 1) (Dbl.fin 1) 1 (sampleBenchmark [0, 1] []))).map
      (fun exp => exp.map (fun e => e.name)) = some ["RRT", ""]
    ∧ sampleEnv.getName 1 0 = "EST" := by
  decide!

/-- Claim C5 as stated fails: a first call with one planner and `runCount = 0` leaves
one experiment, and a second call without space information leaves that experiment
in place, so the experiment set is not empty afterwards. -/
theorem benchmark_no_si_keeps_experiments :
    expOf (benchmark sampleEnv (Dbl.fin 1) (Dbl.fin 1) 0 (sampleBenchmark [0] []))
      = some [⟨"RRT", [], [("memory", "nan"), ("solved", "nan"), ("time", "nan")]⟩]
    ∧ expOf (benchmark sampleEnv (Dbl.fin 1) (Dbl.fin 1) 1
        { sampleBenchmark [0]
            [⟨"RRT", [], [("memory", "nan"), ("solved", "nan"), ("time", "nan")]⟩]
          with si_ := false })
      = some [⟨"RRT", [], [("memory", "nan"), ("solved", "nan"), ("time", "nan")]⟩]
    ∧ expOf (benchmark sampleEnv (Dbl.fin 1) (Dbl.fin 1) 1
        { sampleBenchmark [0]
            [⟨"RRT", [], [("memory", "nan"), ("solved", "nan"), ("time", "nan")]⟩]
          with si_ := false })
      ≠ some [] := by
  decide!

/-- Claim C5, amended: when `si_` is not set or no goal is defined, `benchmark` returns
at once: the experiment set and the collaborators are as before the call, and the only
call made is the report of the error, so no trial is run. -/
theorem benchmark_precondition_failure {W : Type} (env : Env W) (maxTime maxMem : Dbl)
    (runCount : Nat) (b : Benchmark W) (h : b.si_ = false ∨ env.getGoal b.world = false) :
    ∃ b' text, benchmark env maxTime maxMem runCount b = .ok b' ∧ b'.exp_ = b.exp_ ∧
      b'.world = b.world ∧ b'.planners_ = b.planners_ ∧
      b'.calls = b.calls ++ [Call.error text] := by
  by_cases hsi : b.si_ = false
  · exact ⟨b.log (Call.error "No space information defined"), "No space information defined",
      by simp [benchmark, hsi], rfl, rfl, rfl, rfl⟩
  · have hg : env.getGoal b.world = false := h.resolve_left hsi
    have hsi' : b.si_ = true := by simpa using hsi
    exact ⟨b.log (Call.error "No goal defined"), "No goal defined",
      by simp [benchmark, hsi', hg], rfl, rfl, rfl, rfl⟩

/-- Claim C5, amended, at a call without space information on one experiment. -/
theorem benchmark_precondition_failure_witness :
    ∃ b' text, benchmark sampleEnv (Dbl.fin 1) (Dbl.fin 1) 1
        { sampleBenchmark [0] [⟨"RRT", [], []⟩] with si_ := false } = .ok b' ∧
      b'.exp_ = [⟨"RRT", [], []⟩] ∧ b'.world = 0 ∧ b'.planners_ = [0] ∧
      b'.calls = [] ++ [Call.error text] :=
  benchmark_precondition_failure sampleEnv (Dbl.fin 1) (Dbl.fin 1) 1
    { sampleBenchmark [0] [⟨"RRT", [], []⟩] with si_ := false } (Or.inl rfl)

/-- Claim C6: when `si_` is set and a goal is defined, the result of `benchmark` (the
experiment set, and the whole state with it) does not depend on the experiment set
before the call. -/
theorem benchmark_replaces_experiments {W : Type} (env : Env W) (maxTime maxMem : Dbl)
    (runCount : Nat) (b : Benchmark W) (exp₁ exp₂ : List Experiment)
    (hsi : b.si_ = true) (hgoal : env.getGoal b.world = true) :
    benchmark env maxTime maxMem runCount { b with exp_ := exp₁ } =
      benchmark env maxTime maxMem runCount { b with exp_ := exp₂ } := by
  unfold benchmark
  simp only [hsi, hgoal, Bool.not_true, Bool.false_eq_true, if_false]
  cases env.siIsSetup b.world <;> rfl

/-- Claim C6 at two planners, two runs and two experiment sets before the call. -/
theorem benchmark_replaces_experiments_witness :
    benchmark sampleEnv (Dbl.fin 1) (Dbl.fin 1) 2
        { sampleBenchmark [0, 1] [] with exp_ := [⟨"SBL", [[("solved", "1")]], []⟩] } =
      benchmark sampleEnv (Dbl.fin 1) (Dbl.fin 1) 2
        { sampleBenchmark [0, 1] [] with exp_ := [] } :=
  benchmark_replaces_experiments sampleEnv (Dbl.fin 1) (Dbl.fin 1) 2
    (sampleBenchmark [0, 1] []) [⟨"SBL", [[("solved", "1")]], []⟩] [] rfl rfl

/-! ## Theorems on saveResultsToStream -/

/-- Claim C7, the code at one experiment named RRT without runs: the name is not on a
line of its own, the property count follows it on the same line. -/
theorem saveResultsToStream_name_line :
    saveResultsToStream [⟨"RRT", [], []⟩] "" =
      "1 planners\nRRT0 properties for each run\n0 runs\n0 averaged properties\n.\n" := by
  decide!

/-- Claim C8: the property names written for an experiment are strictly increasing. -/
theorem properties_strictly_increasing (e : Experiment) :
    List.Sorted (fun a b => a < b) (properties e) :=
  properties_sorted e

/-- Claim C9: a name is among the property names written for an experiment exactly
when it is a key of one of its runs, and the count written is the number of distinct
keys of the runs. -/
theorem properties_eq_union (e : Experiment) :
    (∀ x, x ∈ properties e ↔ ∃ run ∈ e.runs, x ∈ StdMap.keys run) ∧
    (properties e).length = ((e.runs.map StdMap.keys).flatten.toFinset).card := by
  have hmem : ∀ x, x ∈ properties e ↔ ∃ run ∈ e.runs, x ∈ StdMap.keys run := by
    intro x
    rw [properties_eq]
    exact mem_keys_propSeen e.runs x
  refine ⟨hmem, ?_⟩
  have hnodup : (properties e).Nodup :=
    (properties_sorted e).imp (fun h => ne_of_lt h)
  rw [← List.toFinset_card_of_nodup hnodup]
  congr 1
  ext x
  simp only [List.mem_toFinset, hmem, List.mem_flatten, List.mem_map]
  constructor
  · rintro ⟨run, hrun, hx⟩
    exact ⟨_, ⟨run, hrun, rfl⟩, hx⟩
  · rintro ⟨l, ⟨run, hrun, rfl⟩, hx⟩
    exact ⟨run, hrun, hx⟩

/-- Claim C10: the line written for a run is, for each property name of the experiment
in order, the value the run has for it (nothing when it has none) followed by "; ",
and then the line feed; there is one field for each property name, and the lines of the
runs follow each other in the order of the runs. -/
theorem writeRun_fields (e : Experiment) (run : RunProperties) (out : String) :
    writeRun (properties e) out run =
      out ++ String.join ((properties e).map
        (fun k => (StdMap.find run k).getD "" ++ "; ")) ++ "\n" ∧
    ((properties e).map (fun k => (StdMap.find run k).getD "" ++ "; ")).length =
      (properties e).length ∧
    e.runs.foldl (writeRun (properties e)) out =
      out ++ String.join (e.runs.map (fun r => String.join ((properties e).map
        (fun k => (StdMap.find r k).getD "" ++ "; ")) ++ "\n")) := by
  have hrow : ∀ (r : RunProperties) (o : String), writeRun (properties e) o r =
      o ++ (String.join ((properties e).map
        (fun k => (StdMap.find r k).getD "" ++ "; ")) ++ "\n") := by
    intro r o
    unfold writeRun
    have hf : (fun (out : String) (k : String) =>
        (match StdMap.find r k with
          | some v => out ++ v
          | none => out) ++ "; ") =
        (fun out k => out ++ ((StdMap.find r k).getD "" ++ "; ")) := by
      funext o k
      cases StdMap.find r k <;> simp [String.append_assoc]
    simp only [hf]
    rw [foldl_append_eq, String.append_assoc]
  refine ⟨by rw [hrow, String.append_assoc], by simp, ?_⟩
  have hfun : writeRun (properties e) = fun o r => o ++ (String.join ((properties e).map
        (fun k => (StdMap.find r k).getD "" ++ "; ")) ++ "\n") := by
    funext o r
    exact hrow r o
  rw [hfun]
  exact foldl_append_eq _ e.runs out

/-! ## Lemmas on the runs -/

namespace StdMap

theorem find_assign {V : Type} (m : StdMap V) (k : String) (v : V) (x : String) :
    find (assign m k v) x = if x = k then some v else find m x := by
  induction m with
  | nil => simp [assign, find]
  | cons hd tl ih =>
    obtain ⟨k', v'⟩ := hd
    unfold assign
    by_cases h1 : strLt k k' = true
    · simp only [h1, if_true]
      by_cases hx : x = k
      · simp [find, hx]
      · simp [find, hx]
    · by_cases h2 : k = k'
      · subst h2
        simp only [h1, if_true, if_false, Bool.false_eq_true]
        by_cases hx : x = k
        · simp [find, hx]
        · simp [find, hx]
      · simp only [h1, h2, if_false, Bool.false_eq_true]
        by_cases hx : x = k
        · subst hx
          simp [find, h2, ih]
        · by_cases hx' : x = k'
          · subst hx'
            simp [find, Ne.symm h2]
          · simp [find, hx, hx', ih]

theorem map_assign {V V' : Type} (g : V → V') (m : StdMap V) (k : String) (v : V) :
    (assign m k v).map (fun x => (x.1, g x.2)) =
      assign (m.map (fun x => (x.1, g x.2))) k (g v) := by
  induction m with
  | nil => simp [assign]
  | cons hd tl ih =>
    obtain ⟨k', v'⟩ := hd
    simp only [assign, List.map_cons]
    by_cases h1 : strLt k k' = true
    · simp [h1]
    · by_cases h2 : k = k'
      · subst h2
        simp [h1]
      · simp [h1, h2, ih]

theorem keys_eq_keys_map {V V' : Type} (g : V → V') (m : StdMap V) :
    keys m = keys (m.map (fun x => (x.1, g x.2))) := by
  simp [keys, List.map_map, Function.comp_def]

theorem index_of_mem_keys (m : StdMap String) (k : String) (h : k ∈ keys m) :
    (index m k).2 = m := by
  have hne : find m k ≠ none := (find_ne_none_iff m k).2 h
  unfold index
  cases hf : find m k with
  | none => exact absurd hf hne
  | some v => rfl

end StdMap

theorem foldl_edges (edges : List (List Nat)) (acc : Nat) :
    edges.foldl (fun n e => n + e.length) acc = acc + (edges.map List.length).sum := by
  induction edges generalizing acc with
  | nil => simp
  | cons e t ih => simp [ih, Nat.add_assoc]


namespace Benchmark

theorem log_world {W : Type} (b : Benchmark W) (c : Call) : (b.log c).world = b.world := rfl
theorem log_exp {W : Type} (b : Benchmark W) (c : Call) : (b.log c).exp_ = b.exp_ := rfl
theorem log_planners {W : Type} (b : Benchmark W) (c : Call) :
    (b.log c).planners_ = b.planners_ := rfl
theorem log_si {W : Type} (b : Benchmark W) (c : Call) : (b.log c).si_ = b.si_ := rfl
theorem log_calls {W : Type} (b : Benchmark W) (c : Call) :
    (b.log c).calls = b.calls ++ [c] := rfl
theorem call_world {W : Type} (b : Benchmark W) (c : Call) (f : W → W) :
    (b.call c f).world = f b.world := rfl
theorem call_exp {W : Type} (b : Benchmark W) (c : Call) (f : W → W) :
    (b.call c f).exp_ = b.exp_ := rfl
theorem call_planners {W : Type} (b : Benchmark W) (c : Call) (f : W → W) :
    (b.call c f).planners_ = b.planners_ := rfl
theorem call_si {W : Type} (b : Benchmark W) (c : Call) (f : W → W) :
    (b.call c f).si_ = b.si_ := rfl
theorem call_calls {W : Type} (b : Benchmark W) (c : Call) (f : W → W) :
    (b.call c f).calls = b.calls ++ [c] := rfl

end Benchmark

namespace StdMap

theorem map_unit_assign {V : Type} (m : StdMap V) (k : String) (v : V) :
    (assign m k v).map (fun x => (x.1, ())) = assign (m.map (fun x => (x.1, ()))) k () :=
  map_assign (fun _ => ()) m k v

theorem keys_eq_keys_unit {V : Type} (m : StdMap V) :
    keys m = keys (m.map (fun x => (x.1, ()))) :=
  keys_eq_keys_map (fun _ => ()) m

end StdMap

theorem runTrial_spec {W : Type} (env : Env W) (maxTime : Dbl) (i : Nat) (b : Benchmark W)
    (p : Nat) (e : Experiment) (hp : b.planners_[i]? = some p) (he : b.exp_[i]? = some e) :
    ∃ (run : RunProperties) (b' : Benchmark W),
      runTrial env maxTime i b = .ok b' ∧
      b'.exp_ = b.exp_.set i { e with runs := e.runs ++ [run] } ∧
      b'.planners_ = b.planners_ ∧ b'.si_ = b.si_ ∧
      b'.world = (env.solve p maxTime
        (env.clearSolutionPath (env.plannerClear p (env.allocatorClear b.world)))).2 ∧
      b'.calls = b.calls ++ trialCalls p (env.solve p maxTime
        (env.clearSolutionPath (env.plannerClear p (env.allocatorClear b.world)))).1 ∧
      StdMap.keys run =
        (if (env.solve p maxTime
          (env.clearSolutionPath (env.plannerClear p (env.allocatorClear b.world)))).1
        then ["approximate solution", "graph motions", "graph states", "memory",
          "preallocated states", "solution difference", "solution length", "solved", "time"]
        else ["graph motions", "graph states", "memory", "preallocated states", "solved",
          "time"]) ∧
      StdMap.find run "graph states" = some (toString (env.getPlannerData p b'.world).states.length) ∧
      StdMap.find run "graph motions" =
        some (toString ((env.getPlannerData p b'.world).edges.map List.length).sum) ∧
      StdMap.find run "solved" = some (toStringBool (env.solve p maxTime
        (env.clearSolutionPath (env.plannerClear p (env.allocatorClear b.world)))).1) := by
  unfold runTrial
  simp only [hp]
  cases hs : (env.solve p maxTime
      (env.clearSolutionPath (env.plannerClear p (env.allocatorClear b.world)))).1
  · simp only [hs, Bool.false_eq_true, if_false, Benchmark.log_world, Benchmark.call_world,
      Benchmark.log_exp, Benchmark.call_exp, Benchmark.log_planners, Benchmark.call_planners,
      Benchmark.log_si, Benchmark.call_si, Benchmark.log_calls, Benchmark.call_calls, he]
    refine ⟨_, _, rfl, rfl, rfl, rfl, rfl, ?_, ?_, ?_, ?_, ?_⟩
    · simp [trialCalls]
    · rw [StdMap.keys_eq_keys_unit]
      simp only [StdMap.map_unit_assign, List.map_nil]
      decide
    · simp [StdMap.find_assign]
    · simp [StdMap.find_assign, foldl_edges]
    · simp [StdMap.find_assign]
  · simp only [hs, if_true, solutionProperties, Benchmark.log_world, Benchmark.call_world,
      Benchmark.log_exp, Benchmark.call_exp, Benchmark.log_planners, Benchmark.call_planners,
      Benchmark.log_si, Benchmark.call_si, Benchmark.log_calls, Benchmark.call_calls, he]
    refine ⟨_, _, rfl, rfl, rfl, rfl, rfl, ?_, ?_, ?_, ?_, ?_⟩
    · simp [trialCalls]
    · rw [StdMap.keys_eq_keys_unit]
      simp only [StdMap.map_unit_assign, List.map_nil]
      decide
    · simp [StdMap.find_assign]
    · simp [StdMap.find_assign, foldl_edges]
    · simp [StdMap.find_assign]


/-! ## Lemmas on the order of the calls -/

theorem solveOrdered_nil : SolveOrdered [] := by
  intro k p hk
  simp at hk

theorem solveOrdered_single (c : Call) (hc : ∀ p, c ≠ Call.solve p) : SolveOrdered [c] := by
  intro k p hk
  cases k with
  | zero =>
    simp at hk
    exact absurd hk (hc p)
  | succ n => simp at hk

theorem solveOrdered_append {t u : List Call} (ht : SolveOrdered t) (hu : SolveOrdered u) :
    SolveOrdered (t ++ u) := by
  intro k p hk
  by_cases hlt : k < t.length
  · rw [List.getElem?_append_left hlt] at hk
    obtain ⟨h5, h1, h2, h3, h4, h6, h7, h8⟩ := ht k p hk
    have key : ∀ (j : Nat) (c : Call), t[j]? = some c → (t ++ u)[j]? = some c := by
      intro j c hj
      have hj' : j < t.length := by
        by_contra hge
        rw [List.getElem?_eq_none (by omega)] at hj
        cases hj
      rw [List.getElem?_append_left hj']
      exact hj
    exact ⟨h5, key _ _ h1, key _ _ h2, key _ _ h3, key _ _ h4, key _ _ h6, key _ _ h7,
      key _ _ h8⟩
  · have hge : t.length ≤ k := by omega
    rw [List.getElem?_append_right hge] at hk
    obtain ⟨h5, h1, h2, h3, h4, h6, h7, h8⟩ := hu (k - t.length) p hk
    have key : ∀ (j j' : Nat) (c : Call), u[j]? = some c → j' = j + t.length →
        (t ++ u)[j']? = some c := by
      intro j j' c hj hjj
      subst hjj
      rw [List.getElem?_append_right (by omega)]
      simpa using hj
    exact ⟨by omega, key _ _ _ h1 (by omega), key _ _ _ h2 (by omega),
      key _ _ _ h3 (by omega), key _ _ _ h4 (by omega), key _ _ _ h6 (by omega),
      key _ _ _ h7 (by omega), key _ _ _ h8 (by omega)⟩

theorem solveOrdered_trialCalls (p : Nat) (solved : Bool) :
    SolveOrdered (trialCalls p solved) := by
  intro k q hk
  have hlt : k < 14 := by
    by_contra hge
    have hlen : (trialCalls p solved).length ≤ k := by
      cases solved <;> simp [trialCalls] <;> omega
    rw [List.getElem?_eq_none hlen] at hk
    cases hk
  cases solved <;> interval_cases k <;> simp [trialCalls] at hk ⊢ <;> exact hk


/-! ## What the pieces of the loop keep -/

theorem follows_refl {W : Type} (b : Benchmark W) : Follows b b :=
  ⟨rfl, rfl, rfl, id, [], by simp, solveOrdered_nil⟩

theorem follows_trans {W : Type} {a b c : Benchmark W} (h₁ : Follows a b) (h₂ : Follows b c) :
    Follows a c := by
  obtain ⟨hp₁, hs₁, hl₁, ha₁, cs₁, hc₁, ho₁⟩ := h₁
  obtain ⟨hp₂, hs₂, hl₂, ha₂, cs₂, hc₂, ho₂⟩ := h₂
  refine ⟨hp₂.trans hp₁, hs₂.trans hs₁, hl₂.trans hl₁, fun h => ha₂ (ha₁ h), cs₁ ++ cs₂, ?_,
    solveOrdered_append ho₁ ho₂⟩
  rw [hc₂, hc₁, List.append_assoc]

theorem follows_log {W : Type} (b : Benchmark W) (c : Call) (hc : ∀ p, c ≠ Call.solve p) :
    Follows b (b.log c) :=
  ⟨rfl, rfl, rfl, id, [c], rfl, solveOrdered_single c hc⟩

theorem follows_call {W : Type} (b : Benchmark W) (c : Call) (f : W → W)
    (hc : ∀ p, c ≠ Call.solve p) : Follows b (b.call c f) :=
  ⟨rfl, rfl, rfl, id, [c], rfl, solveOrdered_single c hc⟩

theorem follows_set {W : Type} (b : Benchmark W) (i : Nat) (e e' : Experiment)
    (he : b.exp_[i]? = some e)
    (havg : ∀ k ∈ StdMap.keys e'.avg, k ∈ StdMap.keys e.avg ∨ k ∈ avgProperties) :
    Follows b { b with exp_ := b.exp_.set i e' } := by
  refine ⟨rfl, rfl, by simp, ?_, [], by simp, solveOrdered_nil⟩
  intro hok x hx k hk
  rcases List.mem_or_eq_of_mem_set hx with hx | hx
  · exact hok x hx k hk
  · subst hx
    rcases havg k hk with h | h
    · exact hok e (List.getElem?_mem he) k h
    · exact h

theorem configure_follows {W : Type} (env : Env W) (i : Nat) (b : Benchmark W) :
    Follows b (reached id (configure env i b)) := by
  unfold configure
  rcases hp : b.planners_[i]? with _ | p
  · exact follows_refl b
  · have hchain : Follows b
        ((if (!env.plannerIsSetup p
            (b.call (Call.setProblemDefinition p) (env.setProblemDefinition p)).world) = true
          then ((b.call (Call.setProblemDefinition p) (env.setProblemDefinition p)).log
            (Call.plannerIsSetup p)).call (Call.plannerSetup p) (env.plannerSetup p)
          else (b.call (Call.setProblemDefinition p) (env.setProblemDefinition p)).log
            (Call.plannerIsSetup p)).log (Call.getName p)) := by
      refine follows_trans ?_ (follows_log _ _ (by intro q; simp))
      have h₁ : Follows b ((b.call (Call.setProblemDefinition p)
          (env.setProblemDefinition p)).log (Call.plannerIsSetup p)) :=
        follows_trans (follows_call _ _ _ (by intro q; simp))
          (follows_log _ _ (by intro q; simp))
      split
      · exact follows_trans h₁ (follows_call _ _ _ (by intro q; simp))
      · exact h₁
    simp only
    split
    · exact hchain
    · rename_i e he
      exact follows_trans hchain (follows_set _ i e _ he (fun k hk => Or.inl hk))


theorem runTrial_follows {W : Type} (env : Env W) (maxTime : Dbl) (i : Nat) (b : Benchmark W) :
    Follows b (reached id (runTrial env maxTime i b)) := by
  rcases hp : b.planners_[i]? with _ | p
  · unfold runTrial
    simp only [hp]
    exact follows_refl b
  · rcases he : b.exp_[i]? with _ | e
    · unfold runTrial
      simp only [hp]
      cases hs : (env.solve p maxTime
          (env.clearSolutionPath (env.plannerClear p (env.allocatorClear b.world)))).1
      · simp only [hs, Bool.false_eq_true, if_false, Benchmark.log_world,
          Benchmark.call_world, Benchmark.log_exp, Benchmark.call_exp, he, reached]
        refine ⟨?_, ?_, ?_, ?_, trialCalls p false, ?_, solveOrdered_trialCalls p false⟩
        · simp only [Benchmark.log_planners, Benchmark.call_planners]
        · simp only [Benchmark.log_si, Benchmark.call_si]
        · simp only [Benchmark.log_exp, Benchmark.call_exp]
        · simp only [Benchmark.log_exp, Benchmark.call_exp]
          exact id
        · simp [trialCalls, Benchmark.log_calls, Benchmark.call_calls]
      · simp only [hs, if_true, solutionProperties, Benchmark.log_world,
          Benchmark.call_world, Benchmark.log_exp, Benchmark.call_exp, he, reached]
        refine ⟨?_, ?_, ?_, ?_, trialCalls p true, ?_, solveOrdered_trialCalls p true⟩
        · simp only [Benchmark.log_planners, Benchmark.call_planners]
        · simp only [Benchmark.log_si, Benchmark.call_si]
        · simp only [Benchmark.log_exp, Benchmark.call_exp]
        · simp only [Benchmark.log_exp, Benchmark.call_exp]
          exact id
        · simp [trialCalls, Benchmark.log_calls, Benchmark.call_calls]
    · obtain ⟨run, b', hok, hexp, hpl, hsi, _, hcalls, _⟩ := runTrial_spec env maxTime i b p e hp he
      rw [hok]
      show Follows b b'
      refine ⟨hpl, hsi, by simp [hexp], ?_, _, hcalls, solveOrdered_trialCalls p _⟩
      have hset := (follows_set b i e { e with runs := e.runs ++ [run] } he
        (fun k hk => Or.inl hk)).2.2.2.1
      intro hb
      show AvgKeysOk b'.exp_
      rw [hexp]
      exact hset hb

theorem runTrials_follows {W : Type} (env : Env W) (maxTime : Dbl) (i : Nat) (n : Nat)
    (b : Benchmark W) : Follows b (reached id (runTrials env maxTime i n b)) := by
  induction n generalizing b with
  | zero => exact follows_refl b
  | succ n ih =>
    unfold runTrials
    have h := runTrial_follows env maxTime i b
    rcases hr : runTrial env maxTime i b with a | b₁
    · rw [hr] at h
      exact h
    · rw [hr] at h
      exact follows_trans h (ih b₁)

theorem avgLoop_follows {W : Type} (env : Env W) (prop : String) (j fuel i : Nat) (sum : Dbl)
    (b : Benchmark W) :
    Follows b (reached (fun x => x.2.2) (avgLoop env prop j fuel i sum b)) := by
  induction fuel generalizing i sum b with
  | zero => exact follows_refl b
  | succ fuel ih =>
    unfold avgLoop
    rcases he : b.exp_[i]? with _ | e
    · exact follows_refl b
    · simp only
      split
      · rcases hr : e.runs[j]? with _ | run
        · exact follows_refl b
        · simp only
          exact follows_trans
            (follows_set b i e { e with runs := e.runs.set j (StdMap.index run prop).2 } he
              (fun k hk => Or.inl hk)) (ih _ _ _)
      · exact follows_refl b

theorem average_follows {W : Type} (env : Env W) (prop : String) (hprop : prop ∈ avgProperties)
    (i : Nat) (b : Benchmark W) :
    Follows b (reached (fun x => x.2) (average env prop i b)) := by
  unfold average
  have h := avgLoop_follows env prop 0 (b.exp_.length + 1) i (Dbl.fin 0) b
  rcases hr : avgLoop env prop 0 (b.exp_.length + 1) i (Dbl.fin 0) b with a | ⟨i', sum, b₁⟩
  · rw [hr] at h
    exact h
  · rw [hr] at h
    simp only
    rcases he : b₁.exp_[i']? with _ | e
    · exact h
    · refine follows_trans h (follows_set b₁ i' e _ he ?_)
      intro k hk
      rcases (StdMap.mem_keys_assign e.avg prop _ k).1 hk with hk | hk
      · exact Or.inr (hk ▸ hprop)
      · exact Or.inl hk

theorem averages_follows {W : Type} (env : Env W) (props : List String)
    (hprops : ∀ prop ∈ props, prop ∈ avgProperties) (i : Nat) (b : Benchmark W) :
    Follows b (reached (fun x => x.2) (averages env props i b)) := by
  induction props generalizing i b with
  | nil => exact follows_refl b
  | cons prop rest ih =>
    unfold averages
    have h := average_follows env prop (hprops prop (List.mem_cons_self _ _)) i b
    rcases hr : average env prop i b with a | ⟨i', b₁⟩
    · rw [hr] at h
      exact h
    · rw [hr] at h
      exact follows_trans h (ih (fun q hq => hprops q (List.mem_cons_of_mem _ hq)) i' b₁)

theorem plannerLoop_follows {W : Type} (env : Env W) (maxTime : Dbl) (runCount fuel i : Nat)
    (b : Benchmark W) :
    Follows b (reached id (plannerLoop env maxTime runCount fuel i b)) := by
  induction fuel generalizing i b with
  | zero => exact follows_refl b
  | succ fuel ih =>
    unfold plannerLoop
    split
    · have h₁ := configure_follows env i b
      rcases hc : configure env i b with a | b₁
      · rw [hc] at h₁
        exact h₁
      · rw [hc] at h₁
        have h₁' : Follows b b₁ := h₁
        simp only
        have h₂ := runTrials_follows env maxTime i runCount b₁
        rcases ht : runTrials env maxTime i runCount b₁ with a | b₂
        · rw [ht] at h₂
          have h₂' : Follows b₁ a.2 := h₂
          exact follows_trans h₁' h₂'
        · rw [ht] at h₂
          have h₂' : Follows b₁ b₂ := h₂
          simp only
          have h₃ := averages_follows env avgProperties (fun _ h => h) i b₂
          rcases ha : averages env avgProperties i b₂ with a | ⟨i', b₃⟩
          · rw [ha] at h₃
            have h₃' : Follows b₂ a.2 := h₃
            exact follows_trans h₁' (follows_trans h₂' h₃')
          · rw [ha] at h₃
            have h₃' : Follows b₂ b₃ := h₃
            simp only
            exact follows_trans h₁' (follows_trans h₂' (follows_trans h₃' (ih (i' + 1) b₃)))
    · exact follows_refl b


/-! ## The bound on the iterations is never reached -/

theorem benchmark_eq {W : Type} (env : Env W) (maxTime maxMem : Dbl) (runCount : Nat)
    (b : Benchmark W) (hsi : b.si_ = true) (hgoal : env.getGoal b.world = true) :
    benchmark env maxTime maxMem runCount b =
      plannerLoop env maxTime runCount (b.planners_.length + 1) 0 (prepared env b) := by
  unfold benchmark prepared siWorld
  simp only [hsi, hgoal, Bool.not_true, Bool.false_eq_true, if_false]
  cases env.siIsSetup b.world <;> simp [Benchmark.log, Benchmark.call, hsi]

theorem avgLoop_index {W : Type} (env : Env W) (prop : String) (j fuel i : Nat) (sum : Dbl)
    (b : Benchmark W) (i' : Nat) (sum' : Dbl) (b' : Benchmark W)
    (h : avgLoop env prop j fuel i sum b = .ok (i', sum', b')) : i ≤ i' := by
  induction fuel generalizing i sum b with
  | zero => simp [avgLoop] at h
  | succ fuel ih =>
    unfold avgLoop at h
    rcases he : b.exp_[i]? with _ | e
    · simp [he] at h
    · simp only [he] at h
      split at h
      · rcases hr : e.runs[j]? with _ | run
        · simp [hr] at h
        · simp only [hr] at h
          have := ih _ _ _ h
          omega
      · simp only [Except.ok.injEq, Prod.mk.injEq] at h
        omega

theorem avgLoop_fuel {W : Type} (env : Env W) (prop : String) (j fuel i : Nat) (sum : Dbl)
    (b : Benchmark W) (hfuel : 1 ≤ fuel) (hle : b.exp_.length + 1 ≤ fuel + i)
    (s : Benchmark W) : avgLoop env prop j fuel i sum b ≠ .error (.outOfFuel, s) := by
  induction fuel generalizing i sum b with
  | zero => omega
  | succ fuel ih =>
    unfold avgLoop
    rcases he : b.exp_[i]? with _ | e
    · simp
    · have hi : i < b.exp_.length := (List.getElem?_eq_some.1 he).1
      simp only
      split
      · rcases hr : e.runs[j]? with _ | run
        · simp
        · simp only
          exact ih _ _ _ (by omega) (by simp only [List.length_set]; omega)
      · simp

theorem average_index {W : Type} (env : Env W) (prop : String) (i : Nat) (b : Benchmark W)
    (i' : Nat) (b' : Benchmark W) (h : average env prop i b = .ok (i', b')) : i ≤ i' := by
  unfold average at h
  rcases hr : avgLoop env prop 0 (b.exp_.length + 1) i (Dbl.fin 0) b with a | ⟨i₁, sum, b₁⟩
  · simp [hr] at h
  · simp only [hr] at h
    have hi := avgLoop_index env prop 0 _ i _ b i₁ sum b₁ hr
    rcases he : b₁.exp_[i₁]? with _ | e
    · simp [he] at h
    · simp only [he, Except.ok.injEq, Prod.mk.injEq] at h
      omega

theorem average_fuel {W : Type} (env : Env W) (prop : String) (i : Nat) (b s : Benchmark W) :
    average env prop i b ≠ .error (.outOfFuel, s) := by
  unfold average
  rcases hr : avgLoop env prop 0 (b.exp_.length + 1) i (Dbl.fin 0) b with a | ⟨i₁, sum, b₁⟩
  · simp only
    intro h
    have ha : a = (Abort.outOfFuel, s) := by simpa using h
    exact avgLoop_fuel env prop 0 _ i _ b (by omega) (by omega) s (ha ▸ hr)
  · simp only
    rcases he : b₁.exp_[i₁]? with _ | e <;> simp

theorem averages_index {W : Type} (env : Env W) (props : List String) (i : Nat)
    (b : Benchmark W) (i' : Nat) (b' : Benchmark W)
    (h : averages env props i b = .ok (i', b')) : i ≤ i' := by
  induction props generalizing i b with
  | nil =>
    simp only [averages, Except.ok.injEq, Prod.mk.injEq] at h
    omega
  | cons prop rest ih =>
    unfold averages at h
    rcases hr : average env prop i b with a | ⟨i₁, b₁⟩
    · simp [hr] at h
    · simp only [hr] at h
      have h₁ := average_index env prop i b i₁ b₁ hr
      have h₂ := ih _ _ h
      omega

theorem averages_fuel {W : Type} (env : Env W) (props : List String) (i : Nat)
    (b s : Benchmark W) : averages env props i b ≠ .error (.outOfFuel, s) := by
  induction props generalizing i b with
  | nil => simp [averages]
  | cons prop rest ih =>
    unfold averages
    rcases hr : average env prop i b with a | ⟨i₁, b₁⟩
    · simp only
      intro h
      have ha : a = (Abort.outOfFuel, s) := by simpa using h
      exact average_fuel env prop i b s (ha ▸ hr)
    · simp only
      exact ih _ _

theorem configure_abort {W : Type} (env : Env W) (i : Nat) (b : Benchmark W) (a : Abort)
    (s : Benchmark W) (h : configure env i b = .error (a, s)) : a = Abort.outOfRange := by
  unfold configure at h
  rcases hp : b.planners_[i]? with _ | p
  · simp only [hp, Except.error.injEq, Prod.mk.injEq] at h
    exact h.1.symm
  · simp only [hp] at h
    split at h
    · simp only [Except.error.injEq, Prod.mk.injEq] at h
      exact h.1.symm
    · simp at h

theorem runTrial_abort {W : Type} (env : Env W) (maxTime : Dbl) (i : Nat) (b : Benchmark W)
    (a : Abort) (s : Benchmark W) (h : runTrial env maxTime i b = .error (a, s)) :
    a = Abort.outOfRange := by
  unfold runTrial at h
  rcases hp : b.planners_[i]? with _ | p
  · simp only [hp, Except.error.injEq, Prod.mk.injEq] at h
    exact h.1.symm
  · simp only [hp] at h
    split at h
    · simp only [Except.error.injEq, Prod.mk.injEq] at h
      exact h.1.symm
    · simp at h

theorem runTrials_abort {W : Type} (env : Env W) (maxTime : Dbl) (i n : Nat) (b : Benchmark W)
    (a : Abort) (s : Benchmark W) (h : runTrials env maxTime i n b = .error (a, s)) :
    a = Abort.outOfRange := by
  induction n generalizing b with
  | zero => simp [runTrials] at h
  | succ n ih =>
    unfold runTrials at h
    rcases hr : runTrial env maxTime i b with x | b₁
    · simp only [hr, Except.error.injEq] at h
      exact runTrial_abort env maxTime i b a s (h ▸ hr)
    · simp only [hr] at h
      exact ih b₁ h


theorem plannerLoop_fuel {W : Type} (env : Env W) (maxTime : Dbl) (runCount fuel i : Nat)
    (b : Benchmark W) (hfuel : 1 ≤ fuel) (hle : b.planners_.length + 1 ≤ fuel + i)
    (s : Benchmark W) :
    plannerLoop env maxTime runCount fuel i b ≠ .error (.outOfFuel, s) := by
  induction fuel generalizing i b with
  | zero => omega
  | succ fuel ih =>
    unfold plannerLoop
    split
    · rename_i hi
      have h₁ := configure_follows env i b
      rcases hc : configure env i b with a | b₁
      · simp only
        intro h
        have ha : a = (Abort.outOfFuel, s) := by simpa using h
        have := configure_abort env i b Abort.outOfFuel s (ha ▸ hc)
        cases this
      · rw [hc] at h₁
        have hp₁ : b₁.planners_ = b.planners_ := h₁.1
        simp only
        have h₂ := runTrials_follows env maxTime i runCount b₁
        rcases ht : runTrials env maxTime i runCount b₁ with a | b₂
        · simp only
          intro h
          have ha : a = (Abort.outOfFuel, s) := by simpa using h
          have := runTrials_abort env maxTime i runCount b₁ Abort.outOfFuel s (ha ▸ ht)
          cases this
        · rw [ht] at h₂
          have hp₂ : b₂.planners_ = b₁.planners_ := h₂.1
          simp only
          have h₃ := averages_follows env avgProperties (fun _ h => h) i b₂
          rcases ha : averages env avgProperties i b₂ with a | ⟨i', b₃⟩
          · simp only
            intro h
            have hx : a = (Abort.outOfFuel, s) := by simpa using h
            exact averages_fuel env avgProperties i b₂ s (hx ▸ ha)
          · rw [ha] at h₃
            have hp₃ : b₃.planners_ = b₂.planners_ := h₃.1
            have hi' := averages_index env avgProperties i b₂ i' b₃ ha
            simp only
            refine ih (i' + 1) b₃ (by omega) ?_
            rw [hp₃, hp₂, hp₁]
            omega
    · simp

theorem benchmark_fuel {W : Type} (env : Env W) (maxTime maxMem : Dbl) (runCount : Nat)
    (b s : Benchmark W) :
    benchmark env maxTime maxMem runCount b ≠ .error (.outOfFuel, s) := by
  by_cases hsi : b.si_ = true
  · by_cases hgoal : env.getGoal b.world = true
    · rw [benchmark_eq env maxTime maxMem runCount b hsi hgoal]
      exact plannerLoop_fuel env maxTime runCount _ 0 _ (by omega)
        (by simp [prepared]) s
    · unfold benchmark
      simp [hsi, hgoal]
  · unfold benchmark
    simp [hsi]


/-! ## The averaging loop, case by case -/

theorem avgLoop_none {W : Type} (env : Env W) (prop : String) (j fuel i : Nat) (sum : Dbl)
    (b : Benchmark W) (he : b.exp_[i]? = none) :
    avgLoop env prop j (fuel + 1) i sum b = .error (.outOfRange, b) := by
  simp [avgLoop, he]

theorem avgLoop_stop {W : Type} (env : Env W) (prop : String) (fuel i : Nat) (sum : Dbl)
    (b : Benchmark W) (e : Experiment) (he : b.exp_[i]? = some e) (hruns : e.runs = []) :
    avgLoop env prop 0 (fuel + 1) i sum b = .ok (i, sum, b) := by
  simp [avgLoop, he, hruns]

theorem avgLoop_step {W : Type} (env : Env W) (prop : String) (fuel i : Nat) (sum : Dbl)
    (b : Benchmark W) (e : Experiment) (run : RunProperties) (rest : List RunProperties)
    (he : b.exp_[i]? = some e) (hruns : e.runs = run :: rest) :
    avgLoop env prop 0 (fuel + 1) i sum b =
      avgLoop env prop 0 fuel (i + 1) (Dbl.add sum (env.readDouble (StdMap.index run prop).1))
        { b with
          exp_ := b.exp_.set i { e with runs := (StdMap.index run prop).2 :: rest } } := by
  simp [avgLoop, he, hruns]

theorem average_empty {W : Type} (env : Env W) (prop : String) (i : Nat) (b : Benchmark W)
    (e : Experiment) (he : b.exp_[i]? = some e) (hruns : e.runs = []) :
    average env prop i b = .ok (i,
      { b with
        exp_ := b.exp_.set i
          { e with
            avg := StdMap.assign e.avg prop
              (env.showDouble (Dbl.div (Dbl.fin 0) (Dbl.fin 0))) } }) := by
  unfold average
  rw [avgLoop_stop env prop _ i _ b e he hruns]
  simp [he, hruns]

theorem average_step {W : Type} (env : Env W) (prop : String) (i : Nat) (b : Benchmark W)
    (e e' : Experiment) (he : b.exp_[i]? = some e) (hruns : e.runs ≠ [])
    (he' : b.exp_[i + 1]? = some e') (hruns' : e'.runs = []) :
    ∃ e₁ e₂, average env prop i b =
        .ok (i + 1, { b with exp_ := (b.exp_.set i e₁).set (i + 1) e₂ }) ∧ e₂.runs = [] := by
  obtain ⟨run, rest, hr⟩ : ∃ run rest, e.runs = run :: rest := by
    cases h : e.runs with
    | nil => exact absurd h hruns
    | cons run rest => exact ⟨run, rest, rfl⟩
  have hlt : i + 1 < b.exp_.length := (List.getElem?_eq_some.1 he').1
  obtain ⟨m, hm⟩ : ∃ m, b.exp_.length = m + 1 := ⟨b.exp_.length - 1, by omega⟩
  unfold average
  rw [hm, avgLoop_step env prop _ i _ b e run rest he hr]
  have he₁ : ({ b with
      exp_ := b.exp_.set i { e with runs := (StdMap.index run prop).2 :: rest } } :
        Benchmark W).exp_[i + 1]? =
      some e' := by
    simp only
    rw [List.getElem?_set_ne (by omega)]
    exact he'
  rw [avgLoop_stop env prop _ (i + 1) _ _ e' he₁ hruns']
  simp only [he₁]
  exact ⟨_, _, rfl, hruns'⟩

theorem average_off {W : Type} (env : Env W) (prop : String) (i : Nat) (b : Benchmark W)
    (e : Experiment) (he : b.exp_[i]? = some e) (hruns : e.runs ≠ [])
    (he' : b.exp_[i + 1]? = none) :
    ∃ s, average env prop i b = .error (.outOfRange, s) := by
  obtain ⟨run, rest, hr⟩ : ∃ run rest, e.runs = run :: rest := by
    cases h : e.runs with
    | nil => exact absurd h hruns
    | cons run rest => exact ⟨run, rest, rfl⟩
  have hlt : i < b.exp_.length := (List.getElem?_eq_some.1 he).1
  obtain ⟨m, hm⟩ : ∃ m, b.exp_.length = m + 1 := ⟨b.exp_.length - 1, by omega⟩
  unfold average
  rw [hm, avgLoop_step env prop _ i _ b e run rest he hr]
  have he₁ : ({ b with
      exp_ := b.exp_.set i { e with runs := (StdMap.index run prop).2 :: rest } } :
        Benchmark W).exp_[i + 1]? =
      none := by
    simp only
    rw [List.getElem?_set_ne (by omega)]
    exact he'
  rw [avgLoop_none env prop 0 _ (i + 1) _ _ he₁]
  exact ⟨_, rfl⟩


/-! ## The pieces of the loop over the planners, when the indices are in range -/

theorem set_of_getElem? {α : Type} (l : List α) (i : Nat) (a : α) (h : l[i]? = some a) :
    l.set i a = l := by
  induction l generalizing i with
  | nil => rfl
  | cons x t ih =>
    cases i with
    | zero =>
      simp only [List.getElem?_cons_zero, Option.some.injEq] at h
      simp [h]
    | succ n =>
      simp only [List.getElem?_cons_succ] at h
      simp [ih n h]

theorem configure_ok {W : Type} (env : Env W) (i : Nat) (b : Benchmark W) (p : Nat)
    (e : Experiment) (hp : b.planners_[i]? = some p) (he : b.exp_[i]? = some e) :
    ∃ b', configure env i b = .ok b' ∧ b'.planners_ = b.planners_ ∧ b'.si_ = b.si_ ∧
      b'.world = configureWorld env p b.world ∧
      b'.exp_ = b.exp_.set i { e with name := env.getName p (configureWorld env p b.world) } ∧
      ∃ cs, b'.calls = b.calls ++ cs ∧ ∀ q, Call.solve q ∉ cs := by
  unfold configure configureWorld
  simp only [hp, Benchmark.call_world, Benchmark.log_world]
  by_cases hset : env.plannerIsSetup p (env.setProblemDefinition p b.world) = true
  · simp only [hset, Bool.not_true, Bool.false_eq_true, if_false, Benchmark.log_exp,
      Benchmark.call_exp, he, Benchmark.log_world, Benchmark.call_world]
    refine ⟨_, rfl, rfl, rfl, rfl, rfl, [Call.setProblemDefinition p, Call.plannerIsSetup p,
      Call.getName p], ?_, ?_⟩
    · simp [Benchmark.log_calls, Benchmark.call_calls]
    · intro q hq
      simp at hq
  · have hset' : env.plannerIsSetup p (env.setProblemDefinition p b.world) = false := by
      simpa using hset
    simp only [hset', Bool.not_false, if_true, Benchmark.log_exp, Benchmark.call_exp, he,
      Benchmark.log_world, Benchmark.call_world]
    refine ⟨_, rfl, rfl, rfl, rfl, rfl, [Call.setProblemDefinition p, Call.plannerIsSetup p,
      Call.plannerSetup p, Call.getName p], ?_, ?_⟩
    · simp [Benchmark.log_calls, Benchmark.call_calls]
    · intro q hq
      simp at hq

theorem runTrials_ok {W : Type} (env : Env W) (maxTime : Dbl) (i n : Nat) (b : Benchmark W)
    (p : Nat) (e : Experiment) (hp : b.planners_[i]? = some p) (he : b.exp_[i]? = some e) :
    ∃ b' e', runTrials env maxTime i n b = .ok b' ∧ b'.planners_ = b.planners_ ∧
      b'.exp_ = b.exp_.set i e' ∧ e'.runs.length = e.runs.length + n := by
  induction n generalizing b e with
  | zero =>
    exact ⟨b, e, rfl, rfl, (set_of_getElem? _ _ _ he).symm, rfl⟩
  | succ n ih =>
    obtain ⟨run, b₁, hok, hexp, hpl, _, _, _, _⟩ := runTrial_spec env maxTime i b p e hp he
    have hi : i < b.exp_.length := (List.getElem?_eq_some.1 he).1
    have he₁ : b₁.exp_[i]? = some { e with runs := e.runs ++ [run] } := by
      rw [hexp]
      exact List.getElem?_set_self hi
    obtain ⟨b₂, e₂, hok₂, hpl₂, hexp₂, hlen⟩ := ih b₁ _ (hpl ▸ hp) he₁
    refine ⟨b₂, e₂, ?_, hpl₂.trans hpl, ?_, ?_⟩
    · unfold runTrials
      rw [hok]
      exact hok₂
    · rw [hexp₂, hexp, List.set_set]
    · rw [hlen]
      simp
      omega

theorem averages_empty_tail {W : Type} (env : Env W) (i : Nat) (b : Benchmark W)
    (e : Experiment) (he : b.exp_[i]? = some e) (hruns : e.runs = []) :
    averages env ["time", "memory"] i b = .ok (i,
      { b with
        exp_ := b.exp_.set i
          { e with
            avg := StdMap.assign (StdMap.assign e.avg "time"
                (env.showDouble (Dbl.div (Dbl.fin 0) (Dbl.fin 0)))) "memory"
              (env.showDouble (Dbl.div (Dbl.fin 0) (Dbl.fin 0))) } }) := by
  have hi : i < b.exp_.length := (List.getElem?_eq_some.1 he).1
  unfold averages
  rw [average_empty env "time" i b e he hruns]
  simp only
  unfold averages
  rw [average_empty env "memory" i _
    { e with avg := StdMap.assign e.avg "time" (env.showDouble (Dbl.div (Dbl.fin 0) (Dbl.fin 0))) }
    (List.getElem?_set_self hi) hruns]
  simp [averages, List.set_set]

theorem averages_empty {W : Type} (env : Env W) (i : Nat) (b : Benchmark W) (e : Experiment)
    (he : b.exp_[i]? = some e) (hruns : e.runs = []) :
    averages env avgProperties i b = .ok (i,
      { b with
        exp_ := b.exp_.set i
          { e with
            avg := StdMap.assign (StdMap.assign (StdMap.assign e.avg "solved"
                (env.showDouble (Dbl.div (Dbl.fin 0) (Dbl.fin 0)))) "time"
                (env.showDouble (Dbl.div (Dbl.fin 0) (Dbl.fin 0)))) "memory"
              (env.showDouble (Dbl.div (Dbl.fin 0) (Dbl.fin 0))) } }) := by
  have hi : i < b.exp_.length := (List.getElem?_eq_some.1 he).1
  unfold avgProperties averages
  rw [average_empty env "solved" i b e he hruns]
  simp only
  rw [averages_empty_tail env i _
    { e with avg := StdMap.assign e.avg "solved" (env.showDouble (Dbl.div (Dbl.fin 0) (Dbl.fin 0))) }
    (List.getElem?_set_self hi) hruns]
  simp [List.set_set]

theorem averages_step {W : Type} (env : Env W) (i : Nat) (b : Benchmark W) (e e' : Experiment)
    (he : b.exp_[i]? = some e) (hruns : e.runs ≠ []) (he' : b.exp_[i + 1]? = some e')
    (hruns' : e'.runs = []) :
    ∃ b', averages env avgProperties i b = .ok (i + 1, b') ∧ b'.planners_ = b.planners_ ∧
      b'.exp_.length = b.exp_.length ∧ ∀ k, i + 2 ≤ k → b'.exp_[k]? = b.exp_[k]? := by
  have hlt : i + 1 < b.exp_.length := (List.getElem?_eq_some.1 he').1
  obtain ⟨e₁, e₂, hok, hr₂⟩ := average_step env "solved" i b e e' he hruns he' hruns'
  unfold avgProperties averages
  rw [hok]
  simp only
  rw [averages_empty_tail env (i + 1) _ e₂ (List.getElem?_set_self (by simpa using hlt)) hr₂]
  refine ⟨_, rfl, rfl, by simp, ?_⟩
  intro k hk
  simp only [List.set_set]
  rw [List.getElem?_set_ne (by omega), List.getElem?_set_ne (by omega)]

theorem averages_off {W : Type} (env : Env W) (i : Nat) (b : Benchmark W) (e : Experiment)
    (he : b.exp_[i]? = some e) (hruns : e.runs ≠ []) (he' : b.exp_[i + 1]? = none) :
    ∃ s, averages env avgProperties i b = .error (.outOfRange, s) := by
  obtain ⟨s, hs⟩ := average_off env "solved" i b e he hruns he'
  unfold avgProperties averages
  rw [hs]
  exact ⟨s, rfl⟩


/-! ## The loop over the planners with at least one run -/

theorem plannerLoop_parity {W : Type} (env : Env W) (maxTime : Dbl) (runCount : Nat)
    (hrc : 1 ≤ runCount) (fuel i : Nat) (b : Benchmark W)
    (hlen : b.exp_.length = b.planners_.length)
    (hfresh : ∀ k e, i ≤ k → b.exp_[k]? = some e → e.runs = [])
    (hi : i ≤ b.planners_.length) (hfuel : b.planners_.length + 1 ≤ fuel + i) :
    ((b.planners_.length - i) % 2 = 0 →
      ∃ b', plannerLoop env maxTime runCount fuel i b = .ok b') ∧
    ((b.planners_.length - i) % 2 = 1 →
      ∃ s, plannerLoop env maxTime runCount fuel i b = .error (.outOfRange, s)) := by
  induction fuel generalizing i b with
  | zero => omega
  | succ fuel ih =>
    by_cases hin : i < b.planners_.length
    · have hp : b.planners_[i]? = some b.planners_[i] := List.getElem?_eq_getElem hin
      have hie : i < b.exp_.length := by omega
      have he : b.exp_[i]? = some b.exp_[i] := List.getElem?_eq_getElem hie
      have hruns : (b.exp_[i]).runs = [] := hfresh i _ (Nat.le_refl i) he
      obtain ⟨b₁, hc, hpl₁, _, _, hexp₁, _⟩ := configure_ok env i b _ _ hp he
      have he₁ : b₁.exp_[i]? = some { b.exp_[i] with
          name := env.getName b.planners_[i] (configureWorld env b.planners_[i] b.world) } := by
        rw [hexp₁]
        exact List.getElem?_set_self hie
      have hp₁ : b₁.planners_[i]? = some b.planners_[i] := by rw [hpl₁]; exact hp
      obtain ⟨b₂, e₂, ht, hpl₂, hexp₂, hlen₂⟩ :=
        runTrials_ok env maxTime i runCount b₁ _ _ hp₁ he₁
      have hexp₂' : b₂.exp_ = b.exp_.set i e₂ := by rw [hexp₂, hexp₁, List.set_set]
      have hne : e₂.runs ≠ [] := by
        intro h
        rw [h] at hlen₂
        simp only [List.length_nil, hruns] at hlen₂
        omega
      have he₂ : b₂.exp_[i]? = some e₂ := by
        rw [hexp₂']
        exact List.getElem?_set_self hie
      have hunfold : plannerLoop env maxTime runCount (fuel + 1) i b =
          match averages env avgProperties i b₂ with
          | .error a => .error a
          | .ok (i, b) => plannerLoop env maxTime runCount fuel (i + 1) b := by
        rw [plannerLoop]
        simp only [hin, if_true, hc, ht]
      rw [hunfold]
      by_cases hin' : i + 1 < b.planners_.length
      · have hie' : i + 1 < b.exp_.length := by omega
        have he' : b₂.exp_[i + 1]? = some b.exp_[i + 1] := by
          rw [hexp₂', List.getElem?_set_ne (by omega)]
          exact List.getElem?_eq_getElem hie'
        have hruns' : (b.exp_[i + 1]).runs = [] :=
          hfresh (i + 1) _ (by omega) (List.getElem?_eq_getElem hie')
        obtain ⟨b₃, ha, hpl₃, hlen₃, hsame⟩ :=
          averages_step env i b₂ e₂ _ he₂ hne he' hruns'
        have hP : b₃.planners_ = b.planners_ := by rw [hpl₃, hpl₂, hpl₁]
        rw [ha]
        simp only
        have hrec := ih (i + 1 + 1) b₃
          (by rw [hlen₃, hexp₂', List.length_set, hP]; exact hlen)
          (by
            intro k e hk hke
            rw [hsame k (by omega), hexp₂', List.getElem?_set_ne (by omega)] at hke
            exact hfresh k e (by omega) hke)
          (by rw [hP]; omega) (by rw [hP]; omega)
        rw [hP] at hrec
        constructor
        · intro h
          exact hrec.1 (by omega)
        · intro h
          exact hrec.2 (by omega)
      · have he' : b₂.exp_[i + 1]? = none := by
          rw [hexp₂', List.getElem?_set_ne (by omega)]
          exact List.getElem?_eq_none (by omega)
        obtain ⟨s, hs⟩ := averages_off env i b₂ e₂ he₂ hne he'
        rw [hs]
        constructor
        · intro h
          omega
        · intro _
          exact ⟨s, rfl⟩
    · have hunfold : plannerLoop env maxTime runCount (fuel + 1) i b = .ok b := by
        rw [plannerLoop]
        simp only [hin, if_false]
      rw [hunfold]
      constructor
      · intro _
        exact ⟨b, rfl⟩
      · intro h
        omega


/-! ## The loop over the planners without runs -/

theorem plannerLoop_zero {W : Type} (env : Env W) (maxTime : Dbl) (rest : List Nat) :
    ∀ (pre : List Nat) (done : List Experiment) (fuel : Nat) (b : Benchmark W),
      b.planners_ = pre ++ rest →
      b.exp_ = done ++ List.replicate rest.length ⟨"", [], []⟩ →
      done.length = pre.length → rest.length + 1 ≤ fuel →
      ∃ b', plannerLoop env maxTime 0 fuel pre.length b = .ok b' ∧
        b'.exp_ = done ++ zeroRunExperiments env rest b.world ∧
        b'.planners_ = b.planners_ ∧
        ∃ cs, b'.calls = b.calls ++ cs ∧ ∀ q, Call.solve q ∉ cs := by
  induction rest with
  | nil =>
    intro pre done fuel b hpl hexp hlen hfuel
    obtain ⟨f, rfl⟩ : ∃ f, fuel = f + 1 := ⟨fuel - 1, by omega⟩
    refine ⟨b, ?_, ?_, rfl, [], by simp, by simp⟩
    · rw [plannerLoop]
      simp [hpl]
    · simpa [zeroRunExperiments] using hexp
  | cons p ps ih =>
    intro pre done fuel b hpl hexp hlen hfuel
    obtain ⟨f, rfl⟩ : ∃ f, fuel = f + 1 := ⟨fuel - 1, by omega⟩
    have hin : pre.length < b.planners_.length := by simp [hpl]
    have hp : b.planners_[pre.length]? = some p := by
      rw [hpl, List.getElem?_append_right (Nat.le_refl _)]
      simp
    have he : b.exp_[pre.length]? = some ⟨"", [], []⟩ := by
      rw [hexp, List.getElem?_append_right (by omega)]
      simp [hlen, List.replicate_succ]
    obtain ⟨b₁, hc, hpl₁, _, hw₁, hexp₁, cs₁, hcs₁, hno₁⟩ :=
      configure_ok env pre.length b p _ hp he
    have hie : pre.length < b.exp_.length := (List.getElem?_eq_some.1 he).1
    have he₁ : b₁.exp_[pre.length]? =
        some ⟨env.getName p (configureWorld env p b.world), [], []⟩ := by
      rw [hexp₁]
      exact List.getElem?_set_self hie
    have ha := averages_empty env pre.length b₁ _ he₁ rfl
    have hexp₂ : b₁.exp_.set pre.length
        ⟨env.getName p (configureWorld env p b.world), [],
          StdMap.assign (StdMap.assign (StdMap.assign [] "solved"
            (env.showDouble (Dbl.div (Dbl.fin 0) (Dbl.fin 0)))) "time"
            (env.showDouble (Dbl.div (Dbl.fin 0) (Dbl.fin 0)))) "memory"
            (env.showDouble (Dbl.div (Dbl.fin 0) (Dbl.fin 0)))⟩ =
        (done ++ [⟨env.getName p (configureWorld env p b.world), [],
          [("memory", env.showDouble (Dbl.div (Dbl.fin 0) (Dbl.fin 0))),
            ("solved", env.showDouble (Dbl.div (Dbl.fin 0) (Dbl.fin 0))),
            ("time", env.showDouble (Dbl.div (Dbl.fin 0) (Dbl.fin 0)))]⟩]) ++
          List.replicate ps.length ⟨"", [], []⟩ := by
      rw [hexp₁, List.set_set, hexp, ← hlen, List.set_append_right _ _ (Nat.le_refl _)]
      simp [List.replicate_succ]
      rfl
    obtain ⟨b', hok, hexp', hpl', cs, hcs, hno⟩ := ih (pre ++ [p])
      (done ++ [⟨env.getName p (configureWorld env p b.world), [],
          [("memory", env.showDouble (Dbl.div (Dbl.fin 0) (Dbl.fin 0))),
            ("solved", env.showDouble (Dbl.div (Dbl.fin 0) (Dbl.fin 0))),
            ("time", env.showDouble (Dbl.div (Dbl.fin 0) (Dbl.fin 0)))]⟩]) f
      { b₁ with
        exp_ := b₁.exp_.set pre.length
          ⟨env.getName p (configureWorld env p b.world), [],
            StdMap.assign (StdMap.assign (StdMap.assign [] "solved"
              (env.showDouble (Dbl.div (Dbl.fin 0) (Dbl.fin 0)))) "time"
              (env.showDouble (Dbl.div (Dbl.fin 0) (Dbl.fin 0)))) "memory"
              (env.showDouble (Dbl.div (Dbl.fin 0) (Dbl.fin 0)))⟩ }
      (by simp [hpl₁, hpl]) hexp₂ (by simp [hlen]) (by simp at hfuel ⊢; omega)
    refine ⟨b', ?_, ?_, ?_, cs₁ ++ cs, ?_, ?_⟩
    · rw [plannerLoop]
      simp only [hin, if_true, hc, runTrials, ha]
      simpa using hok
    · rw [hexp']
      simp [zeroRunExperiments, hw₁]
    · rw [hpl']
      exact hpl₁
    · rw [hcs]
      simp [hcs₁]
    · intro q hq
      rcases List.mem_append.1 hq with h | h
      · exact hno₁ q h
      · exact hno q h


/-! ## The text written does not depend on the text before it -/

theorem writeRun_eq (props : List String) (out : String) (run : RunProperties) :
    writeRun props out run =
      out ++ (String.join (props.map (fun k => (StdMap.find run k).getD "" ++ "; ")) ++ "\n") := by
  unfold writeRun
  have hf : (fun (out : String) (k : String) =>
      (match StdMap.find run k with
        | some v => out ++ v
        | none => out) ++ "; ") =
      (fun out k => out ++ ((StdMap.find run k).getD "" ++ "; ")) := by
    funext o k
    cases StdMap.find run k <;> simp [String.append_assoc]
  simp only [hf]
  rw [foldl_append_eq, String.append_assoc]

theorem writeRun_append (props : List String) (out : String) (run : RunProperties) :
    writeRun props out run = out ++ writeRun props "" run := by
  rw [writeRun_eq props out run, writeRun_eq props "" run, String.empty_append]

theorem writeAvg_append (e : Experiment) (out : String) (k : String) :
    writeAvg e out k = out ++ writeAvg e "" k := by
  unfold writeAvg
  cases StdMap.find e.avg k <;> simp [String.append_assoc]

theorem writeExperiment_append (out : String) (e : Experiment) :
    writeExperiment out e = out ++ writeExperiment "" e := by
  have h₁ : ∀ o : String, (properties e).foldl (fun out p => out ++ (p ++ "\n")) o =
      o ++ String.join ((properties e).map (fun p => p ++ "\n")) := by
    intro o
    exact foldl_append_eq _ _ _
  have h₂ : ∀ o : String, e.runs.foldl (writeRun (properties e)) o =
      o ++ String.join (e.runs.map (writeRun (properties e) "")) := by
    intro o
    have hf : writeRun (properties e) = fun o r => o ++ writeRun (properties e) "" r := by
      funext a r
      exact writeRun_append _ _ _
    rw [hf]
    exact foldl_append_eq _ _ _
  have h₃ : ∀ o : String, (avgNames e).foldl (writeAvg e) o =
      o ++ String.join ((avgNames e).map (writeAvg e "")) := by
    intro o
    have hf : writeAvg e = fun o k => o ++ writeAvg e "" k := by
      funext a k
      exact writeAvg_append _ _ _
    rw [hf]
    exact foldl_append_eq _ _ _
  simp only [writeExperiment, h₁, h₂, h₃, String.append_assoc, String.empty_append]

theorem saveResultsToStream_eq (exp : List Experiment) (out : String) :
    saveResultsToStream exp out =
      out ++ (toString exp.length ++ (" planners" ++ ("\n" ++
        String.join (exp.map (writeExperiment ""))))) := by
  unfold saveResultsToStream
  have hf : writeExperiment = fun o e => o ++ writeExperiment "" e := by
    funext a e
    exact writeExperiment_append _ _
  simp only
  rw [hf, foldl_append_eq]
  simp only [String.append_assoc, String.empty_append]

theorem saveResultsToStream_append (exp : List Experiment) (out : String) :
    saveResultsToStream exp out = out ++ saveResultsToStream exp "" := by
  rw [saveResultsToStream_eq exp out, saveResultsToStream_eq exp "", String.empty_append]

/-! ## The result of benchmark -/

theorem benchmark_follows {W : Type} (env : Env W) (maxTime maxMem : Dbl) (runCount : Nat)
    (b : Benchmark W) (hsi : b.si_ = true) (hgoal : env.getGoal b.world = true) :
    Follows (prepared env b) (stateOf (benchmark env maxTime maxMem runCount b)) := by
  rw [benchmark_eq env maxTime maxMem runCount b hsi hgoal]
  exact plannerLoop_follows env maxTime runCount _ 0 _

theorem benchmark_calls {W : Type} (env : Env W) (maxTime maxMem : Dbl) (runCount : Nat)
    (b : Benchmark W) :
    ∃ made, (stateOf (benchmark env maxTime maxMem runCount b)).calls = b.calls ++ made ∧
      SolveOrdered made := by
  by_cases hsi : b.si_ = true
  · by_cases hgoal : env.getGoal b.world = true
    · obtain ⟨_, _, _, _, cs, hcs, hord⟩ :=
        benchmark_follows env maxTime maxMem runCount b hsi hgoal
      refine ⟨(Call.siIsSetup :: (if !env.siIsSetup b.world then [Call.siSetup] else [])) ++ cs,
        ?_, solveOrdered_append ?_ hord⟩
      · rw [hcs]
        simp [prepared]
      · cases env.siIsSetup b.world
        · exact solveOrdered_append (t := [Call.siIsSetup]) (u := [Call.siSetup])
            (solveOrdered_single _ (by intro q; simp)) (solveOrdered_single _ (by intro q; simp))
        · exact solveOrdered_single _ (by intro q; simp)
    · refine ⟨[Call.error "No goal defined"], ?_, solveOrdered_single _ (by intro q; simp)⟩
      unfold benchmark
      simp [hsi, hgoal, stateOf, reached, Benchmark.log]
  · refine ⟨[Call.error "No space information defined"], ?_,
      solveOrdered_single _ (by intro q; simp)⟩
    unfold benchmark
    simp [hsi, stateOf, reached, Benchmark.log]

/-- The calls of `benchmark` at the sample collaborators with two planners and one run:
the space information is asked whether it is set up, the first planner is configured
and makes its run, which is solved; the second planner is never reached. -/
theorem benchmark_calls_sample :
    (stateOf (benchmark sampleEnv (Dbl.fin 1) (Dbl.fin 1) 1 (sampleBenchmark [0, 1] []))).calls =
      [Call.siIsSetup, Call.setProblemDefinition 0, Call.plannerIsSetup 0, Call.getName 0,
        Call.allocatorClear, Call.plannerClear 0, Call.clearSolutionPath,
        Call.getProcessMemoryUsage, Call.now, Call.solve 0, Call.now,
        Call.getProcessMemoryUsage, Call.allocatorSize, Call.isApproximate,
        Call.getDifference, Call.solutionLength, Call.getPlannerData 0] := by
  decide!

theorem zeroRunExperiments_spec {W : Type} (env : Env W) (planners : List Nat) (w : W) :
    (zeroRunExperiments env planners w).length = planners.length ∧
    ∀ e ∈ zeroRunExperiments env planners w, e.runs = [] ∧
      e.avg = [("memory", env.showDouble (Dbl.div (Dbl.fin 0) (Dbl.fin 0))),
        ("solved", env.showDouble (Dbl.div (Dbl.fin 0) (Dbl.fin 0))),
        ("time", env.showDouble (Dbl.div (Dbl.fin 0) (Dbl.fin 0)))] := by
  induction planners generalizing w with
  | nil => simp [zeroRunExperiments]
  | cons p ps ih =>
    obtain ⟨hl, hall⟩ := ih (configureWorld env p w)
    refine ⟨by simp [zeroRunExperiments, hl], ?_⟩
    intro e he
    simp only [zeroRunExperiments, List.mem_cons] at he
    rcases he with he | he
    · subst he
      exact ⟨rfl, rfl⟩
    · exact hall e he


/-! ## One iteration of the loop over the planners -/

theorem freshFrom_prepared {W : Type} (env : Env W) (b : Benchmark W) :
    FreshFrom 0 (prepared env b) := by
  refine ⟨by simp [prepared], ?_⟩
  intro k e _ hke
  have hmem : e ∈ (prepared env b).exp_ := List.getElem?_mem hke
  simp only [prepared] at hmem
  rw [List.eq_of_mem_replicate hmem]

theorem average_once {W : Type} (env : Env W) (prop : String) (i : Nat) (b : Benchmark W)
    (hfresh : ∀ k e, i < k → b.exp_[k]? = some e → e.runs = [])
    (i' : Nat) (b' : Benchmark W) (h : average env prop i b = .ok (i', b')) : i' ≤ i + 1 := by
  rcases he : b.exp_[i]? with _ | e
  · unfold average at h
    rw [avgLoop_none env prop 0 _ i _ b he] at h
    simp at h
  · by_cases hr : e.runs = []
    · rw [average_empty env prop i b e he hr] at h
      simp only [Except.ok.injEq, Prod.mk.injEq] at h
      omega
    · rcases he' : b.exp_[i + 1]? with _ | e'
      · obtain ⟨s, hs⟩ := average_off env prop i b e he hr he'
        rw [hs] at h
        simp at h
      · obtain ⟨e₁, e₂, hok, _⟩ :=
          average_step env prop i b e e' he hr he' (hfresh (i + 1) e' (by omega) he')
        rw [hok] at h
        simp only [Except.ok.injEq, Prod.mk.injEq] at h
        omega

theorem plannerLoop_iteration {W : Type} (env : Env W) (maxTime : Dbl) (runCount i : Nat)
    (b : Benchmark W) (hf : FreshFrom i b) (hi : i < b.planners_.length) :
    ∃ b₁ b₂, configure env i b = .ok b₁ ∧ runTrials env maxTime i runCount b₁ = .ok b₂ ∧
      (∀ k e, i < k → b₂.exp_[k]? = some e → e.runs = []) ∧
      ((∃ s, averages env avgProperties i b₂ = .error (.outOfRange, s)) ∨
        ∃ i' b₃, averages env avgProperties i b₂ = .ok (i', b₃) ∧ i ≤ i' ∧ i' ≤ i + 1 ∧
          FreshFrom (i' + 1) b₃) := by
  obtain ⟨hlen, hfresh⟩ := hf
  have hp : b.planners_[i]? = some b.planners_[i] := List.getElem?_eq_getElem hi
  have hie : i < b.exp_.length := by omega
  have he : b.exp_[i]? = some b.exp_[i] := List.getElem?_eq_getElem hie
  obtain ⟨b₁, hc, hpl₁, _, _, hexp₁, _⟩ := configure_ok env i b _ _ hp he
  have he₁ : b₁.exp_[i]? = some { b.exp_[i] with
      name := env.getName b.planners_[i] (configureWorld env b.planners_[i] b.world) } := by
    rw [hexp₁]
    exact List.getElem?_set_self hie
  have hp₁ : b₁.planners_[i]? = some b.planners_[i] := by rw [hpl₁]; exact hp
  obtain ⟨b₂, e₂, ht, hpl₂, hexp₂, _⟩ := runTrials_ok env maxTime i runCount b₁ _ _ hp₁ he₁
  have hexp₂' : b₂.exp_ = b.exp_.set i e₂ := by rw [hexp₂, hexp₁, List.set_set]
  have hP₂ : b₂.planners_ = b.planners_ := by rw [hpl₂, hpl₁]
  have he₂ : b₂.exp_[i]? = some e₂ := by
    rw [hexp₂']
    exact List.getElem?_set_self hie
  have hfresh₂ : ∀ k e, i < k → b₂.exp_[k]? = some e → e.runs = [] := by
    intro k e hk hke
    rw [hexp₂', List.getElem?_set_ne (by omega)] at hke
    exact hfresh k e (by omega) hke
  refine ⟨b₁, b₂, hc, ht, hfresh₂, ?_⟩
  by_cases hr : e₂.runs = []
  · right
    refine ⟨i, _, averages_empty env i b₂ e₂ he₂ hr, Nat.le_refl i, Nat.le_succ i, ?_, ?_⟩
    · simp only [List.length_set]
      rw [hexp₂', List.length_set, hP₂]
      exact hlen
    · intro k e hk hke
      simp only at hke
      rw [List.getElem?_set_ne (by omega)] at hke
      exact hfresh₂ k e (by omega) hke
  · rcases he' : b₂.exp_[i + 1]? with _ | e'
    · left
      exact averages_off env i b₂ e₂ he₂ hr he'
    · right
      obtain ⟨b₃, ha, hpl₃, hlen₃, hsame⟩ :=
        averages_step env i b₂ e₂ e' he₂ hr he' (hfresh₂ (i + 1) e' (by omega) he')
      refine ⟨i + 1, b₃, ha, Nat.le_succ i, Nat.le_refl _, ?_, ?_⟩
      · rw [hlen₃, hexp₂', List.length_set, hpl₃, hP₂]
        exact hlen
      · intro k e hk hke
        rw [hsame k (by omega)] at hke
        exact hfresh₂ k e (by omega) hke

/-! ## Lemmas on the properties of two runs -/

theorem propSeen_eq_keys (runs : List RunProperties) :
    propSeen runs = (runs.map StdMap.keys).foldl
      (fun seen ks => ks.foldl (fun seen k => StdMap.assign seen k true) seen) [] := by
  unfold propSeen
  rw [List.foldl_map]
  congr 1
  funext seen run
  simp only [StdMap.keys]
  rw [List.foldl_map]

theorem isNone_find {V : Type} (m : StdMap V) (k : String) :
    (StdMap.find m k).isNone = decide (k ∉ StdMap.keys m) := by
  have h := StdMap.find_ne_none_iff m k
  cases hf : StdMap.find m k with
  | none =>
    have : k ∉ StdMap.keys m := fun hk => (h.2 hk) hf
    simp [this]
  | some v =>
    have : k ∈ StdMap.keys m := h.1 (by simp [hf])
    simp [this]

/-! ## Theorems on the runs and on the whole of benchmark -/

/-- Claim C11: with no planner configured, `si_` set and a goal defined, `benchmark`
returns with an empty experiment set, for every `runCount`, and `saveResultsToStream`
then writes the one line `0 planners` and nothing else. -/
theorem benchmark_no_planners {W : Type} (env : Env W) (maxTime maxMem : Dbl) (runCount : Nat)
    (b : Benchmark W) (hsi : b.si_ = true) (hgoal : env.getGoal b.world = true)
    (hnil : b.planners_ = []) :
    ∃ b', benchmark env maxTime maxMem runCount b = .ok b' ∧ b'.exp_ = [] ∧
      saveResultsToStream b'.exp_ "" = "0 planners\n" := by
  have hexp : (prepared env b).exp_ = [] := by simp [prepared, hnil]
  refine ⟨prepared env b, ?_, hexp, ?_⟩
  · rw [benchmark_eq env maxTime maxMem runCount b hsi hgoal, plannerLoop]
    simp [prepared, hnil]
  · rw [hexp]
    decide

/-- Claim C11 at the sample collaborators, no planner and three runs asked for. -/
theorem benchmark_no_planners_witness :
    ∃ b', benchmark sampleEnv (Dbl.fin 1) (Dbl.fin 1) 3 (sampleBenchmark [] []) = .ok b' ∧
      b'.exp_ = [] ∧ saveResultsToStream b'.exp_ "" = "0 planners\n" :=
  benchmark_no_planners sampleEnv (Dbl.fin 1) (Dbl.fin 1) 3 (sampleBenchmark [] []) rfl rfl rfl

/-- Claim C12: a run of planner `p` (the planner at index `i`, with an experiment at
index `i`) is recorded at the end of the runs of that experiment with exactly the six
keys solved, time, memory, preallocated states, graph states, graph motions when
`solve` returned false, and with these and approximate solution, solution difference,
solution length when it returned true; its value for `solved` is the result of
`solve`, and the averaging, which reads solved, time and memory, leaves it as it is. -/
theorem runTrial_keys {W : Type} (env : Env W) (maxTime : Dbl) (i : Nat) (b : Benchmark W)
    (p : Nat) (e : Experiment) (hp : b.planners_[i]? = some p) (he : b.exp_[i]? = some e) :
    ∃ (run : RunProperties) (b' : Benchmark W),
      runTrial env maxTime i b = .ok b' ∧
      b'.exp_ = b.exp_.set i { e with runs := e.runs ++ [run] } ∧
      StdMap.keys run =
        (if (env.solve p maxTime
          (env.clearSolutionPath (env.plannerClear p (env.allocatorClear b.world)))).1
        then ["approximate solution", "graph motions", "graph states", "memory",
          "preallocated states", "solution difference", "solution length", "solved", "time"]
        else ["graph motions", "graph states", "memory", "preallocated states", "solved",
          "time"]) ∧
      StdMap.find run "solved" = some (toStringBool (env.solve p maxTime
        (env.clearSolutionPath (env.plannerClear p (env.allocatorClear b.world)))).1) ∧
      ∀ prop ∈ avgProperties, (StdMap.index run prop).2 = run := by
  obtain ⟨run, b', hok, hexp, _, _, _, _, hkeys, _, _, hsolved⟩ :=
    runTrial_spec env maxTime i b p e hp he
  refine ⟨run, b', hok, hexp, hkeys, hsolved, ?_⟩
  intro prop hprop
  apply StdMap.index_of_mem_keys
  rw [hkeys]
  simp only [avgProperties, List.mem_cons, List.mem_singleton, List.not_mem_nil, or_false]
    at hprop
  split <;> rcases hprop with h | h | h <;> simp [h]

/-- Claim C12 at the sample collaborators: the first run of planner RRT, which is
solved, has the nine keys. -/
theorem runTrial_keys_witness :
    ∃ (run : RunProperties) (b' : Benchmark Nat),
      runTrial sampleEnv (Dbl.fin 1) 0 (sampleBenchmark [0] [⟨"RRT", [], []⟩]) = .ok b' ∧
      b'.exp_ = [⟨"RRT", [run], []⟩] ∧
      StdMap.keys run =
        ["approximate solution", "graph motions", "graph states", "memory",
          "preallocated states", "solution difference", "solution length", "solved", "time"] ∧
      StdMap.find run "solved" = some "1" ∧
      ∀ prop ∈ avgProperties, (StdMap.index run prop).2 = run :=
  runTrial_keys sampleEnv (Dbl.fin 1) 0 (sampleBenchmark [0] [⟨"RRT", [], []⟩]) 0
    ⟨"RRT", [], []⟩ rfl rfl

/-- Claim C14: after `benchmark` with `si_` set and a goal defined, in the state
returned (or reached at an abort), every key of the averages of every experiment is one
of solved, time, memory. -/
theorem benchmark_avg_keys {W : Type} (env : Env W) (maxTime maxMem : Dbl) (runCount : Nat)
    (b : Benchmark W) (hsi : b.si_ = true) (hgoal : env.getGoal b.world = true) :
    ∀ e ∈ (stateOf (benchmark env maxTime maxMem runCount b)).exp_,
      ∀ k ∈ StdMap.keys e.avg, k ∈ ["solved", "time", "memory"] := by
  have h := (benchmark_follows env maxTime maxMem runCount b hsi hgoal).2.2.2.1
  apply h
  intro e he k hk
  have he' : e = ⟨"", [], []⟩ := by
    simp only [prepared] at he
    exact List.eq_of_mem_replicate he
  subst he'
  simp [StdMap.keys] at hk

/-- Claim C14 at the sample collaborators, two planners and two runs. -/
theorem benchmark_avg_keys_witness :
    (sampleBenchmark [0, 1] []).si_ = true ∧
    sampleEnv.getGoal (sampleBenchmark [0, 1] []).world = true ∧
    ∀ e ∈ (stateOf (benchmark sampleEnv (Dbl.fin 1) (Dbl.fin 1) 2
        (sampleBenchmark [0, 1] []))).exp_,
      ∀ k ∈ StdMap.keys e.avg, k ∈ ["solved", "time", "memory"] :=
  ⟨rfl, rfl,
    benchmark_avg_keys sampleEnv (Dbl.fin 1) (Dbl.fin 1) 2 (sampleBenchmark [0, 1] []) rfl rfl⟩

/-- Claim C15: the text that `saveResultsToStream` writes depends on the experiment
set only, not on what the stream holds already, so two calls one after the other write
the same text twice. The experiment set is an argument that the function only reads. -/
theorem saveResultsToStream_twice (exp : List Experiment) (out : String) :
    saveResultsToStream exp out = out ++ saveResultsToStream exp "" ∧
    saveResultsToStream exp (saveResultsToStream exp out) =
      out ++ saveResultsToStream exp "" ++ saveResultsToStream exp "" := by
  refine ⟨saveResultsToStream_append exp out, ?_⟩
  rw [saveResultsToStream_append exp (saveResultsToStream exp out),
    saveResultsToStream_append exp out]

/-- Claim C16: in the run recorded for planner `p`, whatever `solve` returned, the
value of graph states is the number of states of the planner data read after `solve`,
and the value of graph motions is the sum of the lengths of its edge lists. -/
theorem runTrial_graph {W : Type} (env : Env W) (maxTime : Dbl) (i : Nat) (b : Benchmark W)
    (p : Nat) (e : Experiment) (hp : b.planners_[i]? = some p) (he : b.exp_[i]? = some e) :
    ∃ (run : RunProperties) (b' : Benchmark W),
      runTrial env maxTime i b = .ok b' ∧
      b'.exp_ = b.exp_.set i { e with runs := e.runs ++ [run] } ∧
      b'.world = (env.solve p maxTime
        (env.clearSolutionPath (env.plannerClear p (env.allocatorClear b.world)))).2 ∧
      StdMap.find run "graph states" =
        some (toString (env.getPlannerData p b'.world).states.length) ∧
      StdMap.find run "graph motions" =
        some (toString ((env.getPlannerData p b'.world).edges.map List.length).sum) := by
  obtain ⟨run, b', hok, hexp, _, _, hw, _, _, hstates, hmotions, _⟩ :=
    runTrial_spec env maxTime i b p e hp he
  exact ⟨run, b', hok, hexp, hw, hstates, hmotions⟩

/-- Claim C16 at the sample collaborators, whose planner data has three states and the
edge lists `[1, 2]`, `[2]`, `[]`. -/
theorem runTrial_graph_witness :
    ∃ (run : RunProperties) (b' : Benchmark Nat),
      runTrial sampleEnv (Dbl.fin 1) 0 (sampleBenchmark [0] [⟨"RRT", [], []⟩]) = .ok b' ∧
      b'.exp_ = [⟨"RRT", [run], []⟩] ∧ b'.world = 1 ∧
      StdMap.find run "graph states" =
        some (toString (sampleEnv.getPlannerData 0 b'.world).states.length) ∧
      StdMap.find run "graph motions" =
        some (toString ((sampleEnv.getPlannerData 0 b'.world).edges.map List.length).sum) :=
  runTrial_graph sampleEnv (Dbl.fin 1) 0 (sampleBenchmark [0] [⟨"RRT", [], []⟩]) 0
    ⟨"RRT", [], []⟩ rfl rfl

/-- Claim C17: the calls that `benchmark` adds to the calls made before are such that
each call of `solve` on a planner `p` comes right after the clearing of the state
allocator, of planner `p` and of the solution path of the goal, followed by the readings
of memory and time, and is followed right away by the readings of time and memory: the
three resets come before the start of the measurement, and nothing but `solve` is
called between its start and its end. -/
theorem benchmark_call_order {W : Type} (env : Env W) (maxTime maxMem : Dbl) (runCount : Nat)
    (b : Benchmark W) :
    ∃ made, (stateOf (benchmark env maxTime maxMem runCount b)).calls = b.calls ++ made ∧
      ∀ k p, made[k]? = some (Call.solve p) →
        5 ≤ k ∧ made[k - 5]? = some Call.allocatorClear ∧
        made[k - 4]? = some (Call.plannerClear p) ∧
        made[k - 3]? = some Call.clearSolutionPath ∧
        made[k - 2]? = some Call.getProcessMemoryUsage ∧ made[k - 1]? = some Call.now ∧
        made[k + 1]? = some Call.now ∧ made[k + 2]? = some Call.getProcessMemoryUsage :=
  benchmark_calls env maxTime maxMem runCount b

/-- Claim C18: with `si_` set, a goal defined and at least one run for each planner,
`benchmark` returns exactly when the number of planners is even; when it is odd, it
aborts on an index outside `exp_`. -/
theorem benchmark_returns_iff_even {W : Type} (env : Env W) (maxTime maxMem : Dbl)
    (runCount : Nat) (b : Benchmark W) (hsi : b.si_ = true)
    (hgoal : env.getGoal b.world = true) (hrc : 1 ≤ runCount) :
    ((∃ b', benchmark env maxTime maxMem runCount b = .ok b') ↔ Even b.planners_.length) ∧
    (¬ Even b.planners_.length →
      ∃ s, benchmark env maxTime maxMem runCount b = .error (.outOfRange, s)) := by
  have h := plannerLoop_parity env maxTime runCount hrc (b.planners_.length + 1) 0
    (prepared env b) (by simp [prepared])
    (by
      intro k e _ hke
      have hmem : e ∈ (prepared env b).exp_ := List.getElem?_mem hke
      simp only [prepared] at hmem
      rw [List.eq_of_mem_replicate hmem])
    (Nat.zero_le _) (by simp [prepared])
  rw [← benchmark_eq env maxTime maxMem runCount b hsi hgoal] at h
  have hpl : (prepared env b).planners_ = b.planners_ := rfl
  rw [hpl, Nat.sub_zero] at h
  have hodd : ¬ Even b.planners_.length →
      ∃ s, benchmark env maxTime maxMem runCount b = .error (.outOfRange, s) := by
    intro hne
    exact h.2 (by rw [Nat.even_iff] at hne; omega)
  refine ⟨⟨?_, fun hev => h.1 (Nat.even_iff.1 hev)⟩, hodd⟩
  rintro ⟨b', hb'⟩
  by_contra hne
  obtain ⟨s, hs⟩ := hodd hne
  rw [hb'] at hs
  cases hs

/-- Claim C18 at the sample collaborators, two planners and one run. -/
theorem benchmark_returns_iff_even_witness :
    ((∃ b', benchmark sampleEnv (Dbl.fin 1) (Dbl.fin 1) 1 (sampleBenchmark [0, 1] []) = .ok b') ↔
      Even (sampleBenchmark [0, 1] []).planners_.length) ∧
    (¬ Even (sampleBenchmark [0, 1] []).planners_.length →
      ∃ s, benchmark sampleEnv (Dbl.fin 1) (Dbl.fin 1) 1 (sampleBenchmark [0, 1] []) =
        .error (.outOfRange, s)) :=
  benchmark_returns_iff_even sampleEnv (Dbl.fin 1) (Dbl.fin 1) 1 (sampleBenchmark [0, 1] [])
    rfl rfl (Nat.le_refl 1)

/-- Claim C20: with `si_` set, a goal defined and `runCount = 0`, `benchmark` returns;
the experiments are those of `zeroRunExperiments`: one for each planner, in order, with
the name the planner gives once configured, no run, and for each of memory, solved,
time the text of zero divided by zero runs, a NaN; no call of `solve` is made. -/
theorem benchmark_zero_runs {W : Type} (env : Env W) (maxTime maxMem : Dbl) (b : Benchmark W)
    (hsi : b.si_ = true) (hgoal : env.getGoal b.world = true) :
    ∃ b', benchmark env maxTime maxMem 0 b = .ok b' ∧
      b'.exp_ = zeroRunExperiments env b.planners_ (siWorld env b.world) ∧
      b'.exp_.length = b.planners_.length ∧
      (∀ e ∈ b'.exp_, e.runs = [] ∧
        e.avg = [("memory", env.showDouble (Dbl.div (Dbl.fin 0) (Dbl.fin 0))),
          ("solved", env.showDouble (Dbl.div (Dbl.fin 0) (Dbl.fin 0))),
          ("time", env.showDouble (Dbl.div (Dbl.fin 0) (Dbl.fin 0)))]) ∧
      Dbl.div (Dbl.fin 0) (Dbl.fin 0) = Dbl.nan ∧
      ∃ made, b'.calls = b.calls ++ made ∧ ∀ p, Call.solve p ∉ made := by
  obtain ⟨b', hok, hexp, _, cs, hcs, hno⟩ := plannerLoop_zero env maxTime b.planners_ [] []
    (b.planners_.length + 1) (prepared env b) (by simp [prepared]) (by simp [prepared]) rfl
    (Nat.le_refl _)
  have hexp' : b'.exp_ = zeroRunExperiments env b.planners_ (siWorld env b.world) := by
    simpa [prepared] using hexp
  obtain ⟨hlen, hall⟩ := zeroRunExperiments_spec env b.planners_ (siWorld env b.world)
  refine ⟨b', ?_, hexp', by rw [hexp', hlen], by rw [hexp']; exact hall, by simp [Dbl.div],
    (Call.siIsSetup :: (if !env.siIsSetup b.world then [Call.siSetup] else [])) ++ cs, ?_, ?_⟩
  · rw [benchmark_eq env maxTime maxMem 0 b hsi hgoal]
    exact hok
  · rw [hcs]
    simp [prepared]
  · intro p hp
    rcases List.mem_append.1 hp with h | h
    · cases env.siIsSetup b.world <;> simp at h
    · exact hno p h

/-- Claim C20 at the sample collaborators and three planners. -/
theorem benchmark_zero_runs_witness :
    ∃ b', benchmark sampleEnv (Dbl.fin 1) (Dbl.fin 1) 0 (sampleBenchmark [0, 1, 2] []) = .ok b' ∧
      b'.exp_ = zeroRunExperiments sampleEnv [0, 1, 2] (siWorld sampleEnv 0) ∧
      b'.exp_.length = 3 ∧
      (∀ e ∈ b'.exp_, e.runs = [] ∧
        e.avg = [("memory", sampleEnv.showDouble (Dbl.div (Dbl.fin 0) (Dbl.fin 0))),
          ("solved", sampleEnv.showDouble (Dbl.div (Dbl.fin 0) (Dbl.fin 0))),
          ("time", sampleEnv.showDouble (Dbl.div (Dbl.fin 0) (Dbl.fin 0)))]) ∧
      Dbl.div (Dbl.fin 0) (Dbl.fin 0) = Dbl.nan ∧
      ∃ made, b'.calls = [] ++ made ∧ ∀ p, Call.solve p ∉ made :=
  benchmark_zero_runs sampleEnv (Dbl.fin 1) (Dbl.fin 1) (sampleBenchmark [0, 1, 2] []) rfl rfl


/-- Claim C13 as stated fails: at the sample collaborators, with two runs of the first
planner of which the first is solved and the second is not, the property names for
which the second run has no value are three, not four, and its line has three empty
fields. -/
theorem failed_run_misses_three_keys :
    (expOf (benchmark sampleEnv (Dbl.fin 1) (Dbl.fin 1) 2 (sampleBenchmark [0, 1] []))).map
      (fun exp => (exp.take 1).map (fun e =>
        (e.runs.map (fun r => (StdMap.find r "solved",
          (properties e).filter (fun k => (StdMap.find r k).isNone),
          writeRun (properties e) "" r)))))
    = some [[(some "1", [], "0; 3; 3; 3; 0; 0; 5; 1; 2; \n"),
        (some "0", ["approximate solution", "solution difference", "solution length"],
          "; 3; 3; 3; 0; ; ; 0; 2; \n")]]
    ∧ ["approximate solution", "solution difference", "solution length"].length ≠ 4 := by
  decide!

/-- Claim C13, amended: for an experiment of two runs, the first with the nine keys of
a solved run and the second with the six keys of a run that is not solved, the
property names written are the nine keys; the keys of the first run that the second
does not have are the three keys approximate solution, solution difference, solution
length; these are the property names for which the second run has no value; and in the
line of the second run the fields of these three columns are empty. -/
theorem failed_run_row (name : String) (avg r₁ r₂ : RunProperties) (out : String)
    (h₁ : StdMap.keys r₁ = ["approximate solution", "graph motions", "graph states",
      "memory", "preallocated states", "solution difference", "solution length", "solved",
      "time"])
    (h₂ : StdMap.keys r₂ = ["graph motions", "graph states", "memory",
      "preallocated states", "solved", "time"]) :
    properties ⟨name, [r₁, r₂], avg⟩ = ["approximate solution", "graph motions",
      "graph states", "memory", "preallocated states", "solution difference",
      "solution length", "solved", "time"] ∧
    (StdMap.keys r₁).filter (fun k => decide (k ∉ StdMap.keys r₂)) =
      ["approximate solution", "solution difference", "solution length"] ∧
    (properties ⟨name, [r₁, r₂], avg⟩).filter (fun k => (StdMap.find r₂ k).isNone) =
      ["approximate solution", "solution difference", "solution length"] ∧
    writeRun (properties ⟨name, [r₁, r₂], avg⟩) out r₂ =
      out ++ String.join ["; ",
        (StdMap.find r₂ "graph motions").getD "" ++ "; ",
        (StdMap.find r₂ "graph states").getD "" ++ "; ",
        (StdMap.find r₂ "memory").getD "" ++ "; ",
        (StdMap.find r₂ "preallocated states").getD "" ++ "; ",
        "; ", "; ",
        (StdMap.find r₂ "solved").getD "" ++ "; ",
        (StdMap.find r₂ "time").getD "" ++ "; "] ++ "\n" := by
  have hprops : properties ⟨name, [r₁, r₂], avg⟩ = ["approximate solution",
      "graph motions", "graph states", "memory", "preallocated states",
      "solution difference", "solution length", "solved", "time"] := by
    rw [properties_eq, propSeen_eq_keys]
    simp only [List.map_cons, List.map_nil, h₁, h₂]
    decide
  have hnone : ∀ k, k ∉ StdMap.keys r₂ → StdMap.find r₂ k = none := by
    intro k hk
    by_contra hne
    exact hk ((StdMap.find_ne_none_iff r₂ k).1 hne)
  have hn₁ : StdMap.find r₂ "approximate solution" = none := hnone _ (by rw [h₂]; decide)
  have hn₂ : StdMap.find r₂ "solution difference" = none := hnone _ (by rw [h₂]; decide)
  have hn₃ : StdMap.find r₂ "solution length" = none := hnone _ (by rw [h₂]; decide)
  refine ⟨hprops, ?_, ?_, ?_⟩
  · rw [h₁, h₂]
    decide
  · rw [hprops]
    simp only [isNone_find, h₂]
    decide
  · rw [hprops, writeRun_eq]
    simp only [List.map_cons, List.map_nil, hn₁, hn₂, hn₃, Option.getD_none,
      String.empty_append, String.append_assoc]

/-- Claim C13, amended, at the two runs that the sample collaborators give: the nine
property names, and the line of the second run with its three empty fields. -/
theorem failed_run_row_witness :
    properties ⟨"RRT",
      [[("approximate solution", "0"), ("graph motions", "3"), ("graph states", "3"),
        ("memory", "3"), ("preallocated states", "0"), ("solution difference", "0"),
        ("solution length", "5"), ("solved", "1"), ("time", "2")],
       [("graph motions", "3"), ("graph states", "3"), ("memory", "3"),
        ("preallocated states", "0"), ("solved", "0"), ("time", "2")]], []⟩ =
      ["approximate solution", "graph motions", "graph states", "memory",
        "preallocated states", "solution difference", "solution length", "solved", "time"] ∧
    writeRun (properties ⟨"RRT",
      [[("approximate solution", "0"), ("graph motions", "3"), ("graph states", "3"),
        ("memory", "3"), ("preallocated states", "0"), ("solution difference", "0"),
        ("solution length", "5"), ("solved", "1"), ("time", "2")],
       [("graph motions", "3"), ("graph states", "3"), ("memory", "3"),
        ("preallocated states", "0"), ("solved", "0"), ("time", "2")]], []⟩) ""
      [("graph motions", "3"), ("graph states", "3"), ("memory", "3"),
        ("preallocated states", "0"), ("solved", "0"), ("time", "2")] =
      "" ++ String.join ["; ", "3" ++ "; ", "3" ++ "; ", "3" ++ "; ", "0" ++ "; ", "; ", "; ",
        "0" ++ "; ", "2" ++ "; "] ++ "\n" :=
  have h := failed_run_row "RRT" []
    [("approximate solution", "0"), ("graph motions", "3"), ("graph states", "3"),
      ("memory", "3"), ("preallocated states", "0"), ("solution difference", "0"),
      ("solution length", "5"), ("solved", "1"), ("time", "2")]
    [("graph motions", "3"), ("graph states", "3"), ("memory", "3"),
      ("preallocated states", "0"), ("solved", "0"), ("time", "2")] "" rfl rfl
  ⟨h.1, h.2.2.2⟩

/-- Claim C19: `benchmark` always ends, with its result or with an abort on an index
out of range: the bound on the iterations of the model is never what stops it. The
averaging of one property never moves the planner index back, and advances it by at
most one when the experiments after the index have no run. This is the case in
`benchmark`: when the loop over the planners is entered, no experiment has a run, and
an iteration at index `i`, begun with no run from `i` on, configures the planner,
makes the runs, leaves the experiments after `i` without run, and then either aborts
on an index out of range or ends the averaging at `i` or `i + 1` with no run from the
next index on. -/
theorem benchmark_terminates {W : Type} (env : Env W) (maxTime maxMem : Dbl) (runCount : Nat)
    (b : Benchmark W) :
    (∀ s, benchmark env maxTime maxMem runCount b ≠ .error (.outOfFuel, s)) ∧
    (∀ prop i (b₀ : Benchmark W) i' b', average env prop i b₀ = .ok (i', b') → i ≤ i') ∧
    (∀ prop i (b₀ : Benchmark W) i' b',
      (∀ k e, i < k → b₀.exp_[k]? = some e → e.runs = []) →
      average env prop i b₀ = .ok (i', b') → i' ≤ i + 1) ∧
    FreshFrom 0 (prepared env b) ∧
    (∀ i (b₀ : Benchmark W), FreshFrom i b₀ → i < b₀.planners_.length →
      ∃ b₁ b₂, configure env i b₀ = .ok b₁ ∧ runTrials env maxTime i runCount b₁ = .ok b₂ ∧
        (∀ k e, i < k → b₂.exp_[k]? = some e → e.runs = []) ∧
        ((∃ s, averages env avgProperties i b₂ = .error (.outOfRange, s)) ∨
          ∃ i' b₃, averages env avgProperties i b₂ = .ok (i', b₃) ∧ i ≤ i' ∧ i' ≤ i + 1 ∧
            FreshFrom (i' + 1) b₃)) :=
  ⟨fun s => benchmark_fuel env maxTime maxMem runCount b s,
    fun prop i b₀ i' b' h => average_index env prop i b₀ i' b' h,
    fun prop i b₀ i' b' hfresh h => average_once env prop i b₀ hfresh i' b' h,
    freshFrom_prepared env b,
    fun i b₀ hf hi => plannerLoop_iteration env maxTime runCount i b₀ hf hi⟩

end Ompl
